import Mathlib

/-
Verification of the deoptimization subsystem (deoptimizer.h, frames.h,
runtime-compiler.cc).  The repository ships the deoptimizer header with its
data model (TranslatedValue kinds, TranslatedFrame kinds, the translation
opcode list, frame-layout constants) and the runtime notification function,
while the bodies of the TranslatedState / Deoptimizer methods live outside
the provided sources.  Definitions below are translated from the source
where the source provides them; definitions whose doc comment starts with
"Modelled from the spec:" stand in for bodies that are not in the sources.
-/

namespace V8Deopt

/-
Frame layout constants, from frames.h.  The C++ constants are compile-time
values parameterized by the target platform (kPointerSize, kPCOnStackSize,
kFPOnStackSize) and the FLAG_enable_embedded_constant_pool flag; we make
that parameterization explicit.
-/

structure Platform where
  kPointerSize : Nat
  kPCOnStackSize : Nat
  kFPOnStackSize : Nat
  enableEmbeddedConstantPool : Bool

/-- StandardFrameConstants::kCPSlotSize (frames.h): pointer size if the
embedded constant pool flag is on, else zero. -/
def StandardFrameConstants.kCPSlotSize (p : Platform) : Nat :=
  if p.enableEmbeddedConstantPool then p.kPointerSize else 0

/-- StandardFrameConstants::kFixedFrameSizeFromFp (frames.h):
2 * kPointerSize + kCPSlotSize. -/
def StandardFrameConstants.kFixedFrameSizeFromFp (p : Platform) : Nat :=
  2 * p.kPointerSize + StandardFrameConstants.kCPSlotSize p

/-- StandardFrameConstants::kFixedFrameSizeAboveFp (frames.h):
kPCOnStackSize + kFPOnStackSize. -/
def StandardFrameConstants.kFixedFrameSizeAboveFp (p : Platform) : Nat :=
  p.kPCOnStackSize + p.kFPOnStackSize

/-- StandardFrameConstants::kFixedFrameSize (frames.h). -/
def StandardFrameConstants.kFixedFrameSize (p : Platform) : Nat :=
  StandardFrameConstants.kFixedFrameSizeAboveFp p +
    StandardFrameConstants.kFixedFrameSizeFromFp p

/-- StandardFrameConstants::kExpressionsOffset (frames.h):
-3 * kPointerSize - kCPSlotSize, an FP-relative byte offset. -/
def StandardFrameConstants.kExpressionsOffset (p : Platform) : Int :=
  -3 * (p.kPointerSize : Int) - (StandardFrameConstants.kCPSlotSize p : Int)

/-- ConstructFrameConstants::kImplicitReceiverOffset (frames.h):
kExpressionsOffset - 3 * kPointerSize. -/
def ConstructFrameConstants.kImplicitReceiverOffset (p : Platform) : Int :=
  StandardFrameConstants.kExpressionsOffset p - 3 * (p.kPointerSize : Int)

/-- ConstructFrameConstants::kLengthOffset (frames.h):
kExpressionsOffset - 2 * kPointerSize. -/
def ConstructFrameConstants.kLengthOffset (p : Platform) : Int :=
  StandardFrameConstants.kExpressionsOffset p - 2 * (p.kPointerSize : Int)

/-- ConstructFrameConstants::kAllocationSiteOffset (frames.h):
kExpressionsOffset - 1 * kPointerSize. -/
def ConstructFrameConstants.kAllocationSiteOffset (p : Platform) : Int :=
  StandardFrameConstants.kExpressionsOffset p - 1 * (p.kPointerSize : Int)

/-- ConstructFrameConstants::kCodeOffset (frames.h):
kExpressionsOffset - 0 * kPointerSize. -/
def ConstructFrameConstants.kCodeOffset (p : Platform) : Int :=
  StandardFrameConstants.kExpressionsOffset p - 0 * (p.kPointerSize : Int)

/-- ConstructFrameConstants::kFrameSize (frames.h):
kFixedFrameSize + 4 * kPointerSize. -/
def ConstructFrameConstants.kFrameSize (p : Platform) : Nat :=
  StandardFrameConstants.kFixedFrameSize p + 4 * p.kPointerSize

/-- ArgumentsAdaptorFrameConstants::kFrameSize (frames.h):
kFixedFrameSize + kPointerSize. -/
def ArgumentsAdaptorFrameConstants.kFrameSize (p : Platform) : Nat :=
  StandardFrameConstants.kFixedFrameSize p + p.kPointerSize

/-- C8: the constructor-stub frame layout has exactly four slots beyond the
standard fixed frame: the implicit receiver, the argument length, the
allocation site and the code/constructor slot sit at the four consecutive
pointer-sized offsets starting at the expressions offset, they are pairwise
distinct for any positive pointer size, and the total frame size equals the
standard fixed frame size plus four pointer-sized slots. -/
theorem constructStubFrame_four_slots (p : Platform) (hp : 0 < p.kPointerSize) :
    ConstructFrameConstants.kFrameSize p =
      StandardFrameConstants.kFixedFrameSize p + 4 * p.kPointerSize ∧
    ConstructFrameConstants.kCodeOffset p =
      StandardFrameConstants.kExpressionsOffset p ∧
    ConstructFrameConstants.kAllocationSiteOffset p =
      StandardFrameConstants.kExpressionsOffset p - (p.kPointerSize : Int) ∧
    ConstructFrameConstants.kLengthOffset p =
      StandardFrameConstants.kExpressionsOffset p - 2 * (p.kPointerSize : Int) ∧
    ConstructFrameConstants.kImplicitReceiverOffset p =
      StandardFrameConstants.kExpressionsOffset p - 3 * (p.kPointerSize : Int) ∧
    ([ConstructFrameConstants.kImplicitReceiverOffset p,
      ConstructFrameConstants.kLengthOffset p,
      ConstructFrameConstants.kAllocationSiteOffset p,
      ConstructFrameConstants.kCodeOffset p] : List Int).Nodup := by
  have hpz : (0 : Int) < (p.kPointerSize : Int) := by exact_mod_cast hp
  unfold ConstructFrameConstants.kFrameSize ConstructFrameConstants.kCodeOffset
    ConstructFrameConstants.kAllocationSiteOffset
    ConstructFrameConstants.kLengthOffset
    ConstructFrameConstants.kImplicitReceiverOffset
  refine ⟨rfl, by ring, by ring, rfl, rfl, ?_⟩
  simp only [List.nodup_cons, List.mem_cons, List.mem_singleton,
    List.not_mem_nil, List.nodup_nil, and_true, or_false]
  simp only [not_false_iff, and_true]
  set E := StandardFrameConstants.kExpressionsOffset p with hE
  push_neg
  omega

/-- C8 witness: instantiation at a 64-bit platform without an embedded
constant pool (pointer size 8). -/
theorem constructStubFrame_four_slots_witness :
    ConstructFrameConstants.kFrameSize ⟨8, 8, 8, false⟩ =
      StandardFrameConstants.kFixedFrameSize ⟨8, 8, 8, false⟩ + 4 * 8 ∧
    ConstructFrameConstants.kCodeOffset ⟨8, 8, 8, false⟩ =
      StandardFrameConstants.kExpressionsOffset ⟨8, 8, 8, false⟩ ∧
    ConstructFrameConstants.kAllocationSiteOffset ⟨8, 8, 8, false⟩ =
      StandardFrameConstants.kExpressionsOffset ⟨8, 8, 8, false⟩ - (8 : Int) ∧
    ConstructFrameConstants.kLengthOffset ⟨8, 8, 8, false⟩ =
      StandardFrameConstants.kExpressionsOffset ⟨8, 8, 8, false⟩ - 2 * (8 : Int) ∧
    ConstructFrameConstants.kImplicitReceiverOffset ⟨8, 8, 8, false⟩ =
      StandardFrameConstants.kExpressionsOffset ⟨8, 8, 8, false⟩ - 3 * (8 : Int) ∧
    ([ConstructFrameConstants.kImplicitReceiverOffset ⟨8, 8, 8, false⟩,
      ConstructFrameConstants.kLengthOffset ⟨8, 8, 8, false⟩,
      ConstructFrameConstants.kAllocationSiteOffset ⟨8, 8, 8, false⟩,
      ConstructFrameConstants.kCodeOffset ⟨8, 8, 8, false⟩] : List Int).Nodup :=
  constructStubFrame_four_slots ⟨8, 8, 8, false⟩ (by decide)

/-
Translation encoding (deoptimizer.h).  The opcode list is
TRANSLATION_OPCODE_LIST; the Translation constructor writes the stream
header (BEGIN, frame_count, jsframe_count) into the TranslationBuffer.
-/

/-- Translation::Opcode, from TRANSLATION_OPCODE_LIST in deoptimizer.h,
in declaration order. -/
inductive Opcode
  | BEGIN
  | JS_FRAME
  | INTERPRETED_FRAME
  | CONSTRUCT_STUB_FRAME
  | GETTER_STUB_FRAME
  | SETTER_STUB_FRAME
  | ARGUMENTS_ADAPTOR_FRAME
  | COMPILED_STUB_FRAME
  | DUPLICATED_OBJECT
  | ARGUMENTS_OBJECT
  | CAPTURED_OBJECT
  | REGISTER
  | INT32_REGISTER
  | UINT32_REGISTER
  | BOOL_REGISTER
  | DOUBLE_REGISTER
  | STACK_SLOT
  | INT32_STACK_SLOT
  | UINT32_STACK_SLOT
  | BOOL_STACK_SLOT
  | DOUBLE_STACK_SLOT
  | LITERAL
  | JS_FRAME_FUNCTION
deriving DecidableEq, Repr

/-- Numeric value of an opcode in the byte stream (enum declaration order). -/
def opVal : Opcode → Int
  | .BEGIN => 0
  | .JS_FRAME => 1
  | .INTERPRETED_FRAME => 2
  | .CONSTRUCT_STUB_FRAME => 3
  | .GETTER_STUB_FRAME => 4
  | .SETTER_STUB_FRAME => 5
  | .ARGUMENTS_ADAPTOR_FRAME => 6
  | .COMPILED_STUB_FRAME => 7
  | .DUPLICATED_OBJECT => 8
  | .ARGUMENTS_OBJECT => 9
  | .CAPTURED_OBJECT => 10
  | .REGISTER => 11
  | .INT32_REGISTER => 12
  | .UINT32_REGISTER => 13
  | .BOOL_REGISTER => 14
  | .DOUBLE_REGISTER => 15
  | .STACK_SLOT => 16
  | .INT32_STACK_SLOT => 17
  | .UINT32_STACK_SLOT => 18
  | .BOOL_STACK_SLOT => 19
  | .DOUBLE_STACK_SLOT => 20
  | .LITERAL => 21
  | .JS_FRAME_FUNCTION => 22

/-- Decoding an opcode number back to the opcode. -/
def opcodeOfVal (n : Int) : Option Opcode :=
  if n = 0 then some .BEGIN
  else if n = 1 then some .JS_FRAME
  else if n = 2 then some .INTERPRETED_FRAME
  else if n = 3 then some .CONSTRUCT_STUB_FRAME
  else if n = 4 then some .GETTER_STUB_FRAME
  else if n = 5 then some .SETTER_STUB_FRAME
  else if n = 6 then some .ARGUMENTS_ADAPTOR_FRAME
  else if n = 7 then some .COMPILED_STUB_FRAME
  else if n = 8 then some .DUPLICATED_OBJECT
  else if n = 9 then some .ARGUMENTS_OBJECT
  else if n = 10 then some .CAPTURED_OBJECT
  else if n = 11 then some .REGISTER
  else if n = 12 then some .INT32_REGISTER
  else if n = 13 then some .UINT32_REGISTER
  else if n = 14 then some .BOOL_REGISTER
  else if n = 15 then some .DOUBLE_REGISTER
  else if n = 16 then some .STACK_SLOT
  else if n = 17 then some .INT32_STACK_SLOT
  else if n = 18 then some .UINT32_STACK_SLOT
  else if n = 19 then some .BOOL_STACK_SLOT
  else if n = 20 then some .DOUBLE_STACK_SLOT
  else if n = 21 then some .LITERAL
  else if n = 22 then some .JS_FRAME_FUNCTION
  else none

/-- Modelled from the spec: Translation::NumberOfOperandsFor, whose body is
not among the provided sources.  The spec fixes the decoding contract: the
operand count is part of the opcode's defined arity table, not encoded in
the stream.  The arities follow the operands each Translation command of
deoptimizer.h appends: the BEGIN header carries frame count and js-frame
count (the two Adds of the Translation constructor), the begin-frame
opcodes carry the operands of their Begin* commands, and each store opcode
carries its single register / slot / index operand
(StoreJSFrameFunction carries none). -/
def numberOfOperandsFor : Opcode → Nat
  | .BEGIN => 2
  | .JS_FRAME => 3
  | .INTERPRETED_FRAME => 3
  | .CONSTRUCT_STUB_FRAME => 2
  | .GETTER_STUB_FRAME => 1
  | .SETTER_STUB_FRAME => 1
  | .ARGUMENTS_ADAPTOR_FRAME => 2
  | .COMPILED_STUB_FRAME => 1
  | .DUPLICATED_OBJECT => 1
  | .ARGUMENTS_OBJECT => 1
  | .CAPTURED_OBJECT => 1
  | .REGISTER => 1
  | .INT32_REGISTER => 1
  | .UINT32_REGISTER => 1
  | .BOOL_REGISTER => 1
  | .DOUBLE_REGISTER => 1
  | .STACK_SLOT => 1
  | .INT32_STACK_SLOT => 1
  | .UINT32_STACK_SLOT => 1
  | .BOOL_STACK_SLOT => 1
  | .DOUBLE_STACK_SLOT => 1
  | .LITERAL => 1
  | .JS_FRAME_FUNCTION => 0

/-- The commands of class Translation in deoptimizer.h (everything after the
constructor), one per non-BEGIN opcode. -/
inductive Command
  | beginJSFrame (nodeId literalId height : Int)
  | beginInterpretedFrame (bytecodeOffset literalId height : Int)
  | beginConstructStubFrame (literalId height : Int)
  | beginGetterStubFrame (literalId : Int)
  | beginSetterStubFrame (literalId : Int)
  | beginArgumentsAdaptorFrame (literalId height : Int)
  | beginCompiledStubFrame (height : Int)
  | duplicateObject (objectIndex : Int)
  | beginArgumentsObject (argsLength : Int)
  | beginCapturedObject (length : Int)
  | storeRegister (reg : Int)
  | storeInt32Register (reg : Int)
  | storeUint32Register (reg : Int)
  | storeBoolRegister (reg : Int)
  | storeDoubleRegister (reg : Int)
  | storeStackSlot (index : Int)
  | storeInt32StackSlot (index : Int)
  | storeUint32StackSlot (index : Int)
  | storeBoolStackSlot (index : Int)
  | storeDoubleStackSlot (index : Int)
  | storeLiteral (literalId : Int)
  | storeJSFrameFunction
deriving DecidableEq, Repr

/-- The opcode a command writes. -/
def opcodeOf : Command → Opcode
  | .beginJSFrame _ _ _ => .JS_FRAME
  | .beginInterpretedFrame _ _ _ => .INTERPRETED_FRAME
  | .beginConstructStubFrame _ _ => .CONSTRUCT_STUB_FRAME
  | .beginGetterStubFrame _ => .GETTER_STUB_FRAME
  | .beginSetterStubFrame _ => .SETTER_STUB_FRAME
  | .beginArgumentsAdaptorFrame _ _ => .ARGUMENTS_ADAPTOR_FRAME
  | .beginCompiledStubFrame _ => .COMPILED_STUB_FRAME
  | .duplicateObject _ => .DUPLICATED_OBJECT
  | .beginArgumentsObject _ => .ARGUMENTS_OBJECT
  | .beginCapturedObject _ => .CAPTURED_OBJECT
  | .storeRegister _ => .REGISTER
  | .storeInt32Register _ => .INT32_REGISTER
  | .storeUint32Register _ => .UINT32_REGISTER
  | .storeBoolRegister _ => .BOOL_REGISTER
  | .storeDoubleRegister _ => .DOUBLE_REGISTER
  | .storeStackSlot _ => .STACK_SLOT
  | .storeInt32StackSlot _ => .INT32_STACK_SLOT
  | .storeUint32StackSlot _ => .UINT32_STACK_SLOT
  | .storeBoolStackSlot _ => .BOOL_STACK_SLOT
  | .storeDoubleStackSlot _ => .DOUBLE_STACK_SLOT
  | .storeLiteral _ => .LITERAL
  | .storeJSFrameFunction => .JS_FRAME_FUNCTION

/-- Modelled from the spec: the operands each Translation command appends
after its opcode (the command bodies are not among the provided sources;
the operands are the arguments of the declared command, in order). -/
def operandsOf : Command → List Int
  | .beginJSFrame nodeId literalId height => [nodeId, literalId, height]
  | .beginInterpretedFrame bo literalId height => [bo, literalId, height]
  | .beginConstructStubFrame literalId height => [literalId, height]
  | .beginGetterStubFrame literalId => [literalId]
  | .beginSetterStubFrame literalId => [literalId]
  | .beginArgumentsAdaptorFrame literalId height => [literalId, height]
  | .beginCompiledStubFrame height => [height]
  | .duplicateObject objectIndex => [objectIndex]
  | .beginArgumentsObject argsLength => [argsLength]
  | .beginCapturedObject length => [length]
  | .storeRegister r => [r]
  | .storeInt32Register r => [r]
  | .storeUint32Register r => [r]
  | .storeBoolRegister r => [r]
  | .storeDoubleRegister r => [r]
  | .storeStackSlot i => [i]
  | .storeInt32StackSlot i => [i]
  | .storeUint32StackSlot i => [i]
  | .storeBoolStackSlot i => [i]
  | .storeDoubleStackSlot i => [i]
  | .storeLiteral literalId => [literalId]
  | .storeJSFrameFunction => []

/-- Byte-stream contribution of one command: its opcode then its operands. -/
def emitCmd (c : Command) : List Int :=
  opVal (opcodeOf c) :: operandsOf c

/-- Byte-stream contribution of a command sequence. -/
def encodeCmds : List Command → List Int
  | [] => []
  | c :: cs => emitCmd c ++ encodeCmds cs

/-- Translation::Translation (deoptimizer.h, inline): writes BEGIN, then the
frame count, then the js-frame count, before any command is appended. -/
def encodeStream (frameCount jsframeCount : Int) (cmds : List Command) :
    List Int :=
  opVal .BEGIN :: frameCount :: jsframeCount :: encodeCmds cmds

/-- A forward-only decoder that, for each opcode, consumes exactly the fixed
operand count of the arity table (TranslationIterator::Skip driven by
NumberOfOperandsFor), returning the opcode sequence. -/
def decodeOpcodes : List Int → Option (List Opcode)
  | [] => some []
  | x :: rest =>
    match opcodeOfVal x with
    | none => none
    | some op =>
      if numberOfOperandsFor op ≤ rest.length then
        match decodeOpcodes (rest.drop (numberOfOperandsFor op)) with
        | none => none
        | some ops => some (op :: ops)
      else none
termination_by l => l.length
decreasing_by
  simp only [List.length_drop, List.length_cons]
  omega

theorem opcodeOfVal_opVal (oc : Opcode) : opcodeOfVal (opVal oc) = some oc := by
  cases oc <;> rfl

theorem operandsOf_length (c : Command) :
    (operandsOf c).length = numberOfOperandsFor (opcodeOf c) := by
  cases c <;> rfl

theorem decodeOpcodes_emit_cons (c : Command) (rest : List Int) :
    decodeOpcodes (emitCmd c ++ rest) =
      (decodeOpcodes rest).map (fun ops => opcodeOf c :: ops) := by
  have hlen : (operandsOf c).length = numberOfOperandsFor (opcodeOf c) :=
    operandsOf_length c
  have hle : numberOfOperandsFor (opcodeOf c) ≤ (operandsOf c ++ rest).length := by
    rw [List.length_append, ← hlen]
    exact Nat.le_add_right _ _
  have hdrop : (operandsOf c ++ rest).drop (numberOfOperandsFor (opcodeOf c)) =
      rest := by
    rw [← hlen]
    exact List.drop_left (operandsOf c) rest
  show decodeOpcodes (opVal (opcodeOf c) :: (operandsOf c ++ rest)) = _
  rw [decodeOpcodes]
  simp only [opcodeOfVal_opVal, hdrop, if_pos hle]
  cases decodeOpcodes rest <;> rfl

theorem decodeOpcodes_encodeCmds (cmds : List Command) :
    decodeOpcodes (encodeCmds cmds) = some (cmds.map opcodeOf) := by
  induction cmds with
  | nil =>
    rw [encodeCmds, decodeOpcodes]
    rfl
  | cons c cs ih =>
    rw [encodeCmds, decodeOpcodes_emit_cons, ih]
    rfl

/-- C6: every translation stream begins with the BEGIN opcode followed
immediately by exactly the two header operands, the total frame count and
then the js-frame count, before any begin-frame opcode; each command writes
its opcode followed by exactly NumberOfOperandsFor operands; and the
decoder that consumes, for each opcode, exactly the operand count given by
the arity table recovers precisely the emitted opcode sequence, BEGIN
first. -/
theorem translation_stream_header_and_arity (frameCount jsframeCount : Int)
    (cmds : List Command) :
    (encodeStream frameCount jsframeCount cmds).take 3 =
      [opVal .BEGIN, frameCount, jsframeCount] ∧
    (∀ c : Command,
      (emitCmd c).length = 1 + numberOfOperandsFor (opcodeOf c)) ∧
    decodeOpcodes (encodeStream frameCount jsframeCount cmds) =
      some (.BEGIN :: cmds.map opcodeOf) := by
  refine ⟨rfl, ?_, ?_⟩
  · intro c
    simp [emitCmd, operandsOf_length c, Nat.add_comm]
  · have hle : numberOfOperandsFor .BEGIN ≤
        (frameCount :: jsframeCount :: encodeCmds cmds).length := by
      simp [numberOfOperandsFor]
    have hdrop : (frameCount :: jsframeCount :: encodeCmds cmds).drop
        (numberOfOperandsFor .BEGIN) = encodeCmds cmds := rfl
    show decodeOpcodes
      (opVal .BEGIN :: frameCount :: jsframeCount :: encodeCmds cmds) = _
    rw [decodeOpcodes]
    simp only [opcodeOfVal_opVal, hdrop, if_pos hle]
    rw [decodeOpcodes_encodeCmds]

/-
Arguments-adaptor frames (frames.h): automatically inserted below
JavaScript frames when the actual number of parameters does not match the
formal number of parameters.
-/

/-- TranslatedFrame::Kind, from deoptimizer.h. -/
inductive TranslatedFrame.Kind
  | kFunction
  | kInterpretedFunction
  | kGetter
  | kSetter
  | kArgumentsAdaptor
  | kConstructStub
  | kCompiledStub
  | kInvalid
deriving DecidableEq, Repr

/-- A call site: the actual argument count passed and the callee's formal
parameter count. -/
structure CallSite where
  actualArgCount : Nat
  formalParamCount : Nat

/-- Modelled from the spec: the frame-layout decision of the optimizing
encoder (Translation::BeginArgumentsAdaptorFrame call sites, not among the
provided sources).  Per the frames.h comment, an arguments-adaptor frame is
inserted below the callee frame exactly when the actual argument count
differs from the formal parameter count, and per the spec its declared
height is the actual argument count. -/
def framesForCall (site : CallSite) (callee : TranslatedFrame.Kind × Nat) :
    List (TranslatedFrame.Kind × Nat) :=
  if site.actualArgCount = site.formalParamCount then [callee]
  else (TranslatedFrame.Kind.kArgumentsAdaptor, site.actualArgCount) :: [callee]

/-- C7: an arguments-adaptor frame is present in the translated frame list
of a call exactly when the actual argument count differs from the callee's
formal parameter count, and whenever present its declared height is the
actual (not the formal) argument count. -/
theorem argumentsAdaptor_iff_mismatch (site : CallSite)
    (callee : TranslatedFrame.Kind × Nat)
    (hcallee : callee.1 ≠ TranslatedFrame.Kind.kArgumentsAdaptor) :
    ((∃ h, (TranslatedFrame.Kind.kArgumentsAdaptor, h) ∈
        framesForCall site callee) ↔
      site.actualArgCount ≠ site.formalParamCount) ∧
    (∀ h, (TranslatedFrame.Kind.kArgumentsAdaptor, h) ∈
        framesForCall site callee → h = site.actualArgCount) := by
  have hnot : ∀ h : Nat,
      (TranslatedFrame.Kind.kArgumentsAdaptor, h) ∉ ([callee] :
        List (TranslatedFrame.Kind × Nat)) := by
    intro h hmem
    have h1 : TranslatedFrame.Kind.kArgumentsAdaptor = callee.1 :=
      congrArg Prod.fst (List.mem_singleton.mp hmem)
    exact hcallee h1.symm
  unfold framesForCall
  by_cases hc : site.actualArgCount = site.formalParamCount
  · rw [if_pos hc]
    refine ⟨⟨?_, ?_⟩, ?_⟩
    · rintro ⟨h, hmem⟩
      exact absurd hmem (hnot h)
    · intro hne
      exact absurd hc hne
    · intro h hmem
      exact absurd hmem (hnot h)
  · rw [if_neg hc]
    refine ⟨⟨fun _ => hc,
      fun _ => ⟨site.actualArgCount, List.mem_cons_self _ _⟩⟩, ?_⟩
    intro h hmem
    rcases List.mem_cons.mp hmem with heq | hmem1
    · exact congrArg Prod.snd heq
    · exact absurd hmem1 (hnot h)

/-- C7 witness: a call passing 3 actual arguments to a 2-parameter function
gets an adaptor frame of height 3; the instantiated theorem applied at that
site. -/
theorem argumentsAdaptor_iff_mismatch_witness :
    ((∃ h, (TranslatedFrame.Kind.kArgumentsAdaptor, h) ∈
        framesForCall ⟨3, 2⟩ (TranslatedFrame.Kind.kFunction, 0)) ↔
      (3 : Nat) ≠ (2 : Nat)) ∧
    (∀ h, (TranslatedFrame.Kind.kArgumentsAdaptor, h) ∈
        framesForCall ⟨3, 2⟩ (TranslatedFrame.Kind.kFunction, 0) → h = 3) :=
  argumentsAdaptor_iff_mismatch ⟨3, 2⟩ (TranslatedFrame.Kind.kFunction, 0)
    (by decide)

/-
Logical values (deoptimizer.h TranslatedValue).  The C++ class is a manual
tagged union: Kind plus a union of raw_literal_ / int32_value_ /
uint32_value_ / double_value_ / MaterializedObjectInfo, and a MaybeHandle
value_ that is null before handlification and holds the materialized handle
afterwards.  Doubles are carried as opaque bit patterns; no floating-point
arithmetic happens in this subsystem's bookkeeping.
-/

/-- TranslatedValue::Kind with the matching union payload (deoptimizer.h):
kTagged carries raw_literal_, kInt32 carries int32_value_, kUInt32 and
kBoolBit carry uint32_value_, kDouble carries double_value_ as a bit
pattern, and the three object kinds carry MaterializedObjectInfo. -/
inductive TVKind
  | kInvalid
  | kTagged (rawLiteral : Int)
  | kInt32 (value : Int)
  | kUInt32 (value : Nat)
  | kBoolBit (value : Nat)
  | kDouble (bits : Nat)
  | kCapturedObject (length objectIndex : Nat)
  | kDuplicatedObject (id : Nat)
  | kArgumentsObject (length objectIndex : Nat)
deriving DecidableEq, Repr

/-- Heap objects as seen through handles.  heapObj addresses are issued by
the materialization allocator, so two materialized references are
pointer-equal exactly when they are equal as Obj.  adaptedArgs is the
arguments object read out of an adjacent arguments-adaptor frame
(identified by that frame's fp and its actual argument count). -/
inductive Obj
  | argumentsMarker
  | smi (value : Int)
  | boolean (value : Bool)
  | heapNumber (value : Int)
  | heapNumberBits (bits : Nat)
  | taggedRaw (raw : Int)
  | adaptedArgs (fp argCount : Nat)
  | heapObj (addr : Nat)
deriving DecidableEq, Repr

/-- TranslatedValue (deoptimizer.h): the kind/payload plus the MaybeHandle
value_, which is null until the value is handlified or materialized. -/
structure TranslatedValue where
  kind : TVKind
  value? : Option Obj
deriving DecidableEq, Repr

/-- Smi range check for a 31-bit payload (Smi::IsValid on the 32-bit
layout): values outside it need a HeapNumber allocation. -/
def smiValid (v : Int) : Bool :=
  decide (-1073741824 ≤ v ∧ v < 1073741824)

/-
Value resolution (spec section 4.2).  TranslatedState::Init and
CreateNextTranslatedValue walk the translation stream against the captured
frame and register snapshot; their bodies are not among the provided
sources, so the resolver below is modelled from the spec.
-/

/-- The raw input snapshot a deoptimization captures: register bits, double
register bits, stack-slot bits of the optimized frame, the literal pool of
the optimized code, and the frame's own function (for JS_FRAME_FUNCTION).
All reads are pure bit reads, per the capture contract. -/
structure Snapshot where
  reg : Nat → Int
  dreg : Nat → Nat
  stackSlot : Nat → Int
  doubleStackSlot : Nat → Nat
  literalAt : Nat → Int
  functionVal : Int

/-- The per-value translation opcodes: the store opcodes of
TRANSLATION_OPCODE_LIST (deoptimizer.h) that yield one logical value. -/
inductive ValueOp
  | register (n : Nat)
  | int32Register (n : Nat)
  | uint32Register (n : Nat)
  | boolRegister (n : Nat)
  | doubleRegister (n : Nat)
  | stackSlot (n : Nat)
  | int32StackSlot (n : Nat)
  | uint32StackSlot (n : Nat)
  | boolStackSlot (n : Nat)
  | doubleStackSlot (n : Nat)
  | literal (id : Nat)
  | jsFrameFunction
  | duplicatedObject (id : Nat)
  | argumentsObject (length : Nat)
  | capturedObject (length : Nat)
deriving DecidableEq, Repr

/-- Stream-consistency violations are fatal (spec section 7): a
duplicate-object opcode naming an id that has not been resolved yet means
the encoder and decoder drifted out of sync, and resolution aborts. -/
inductive ResolveError
  | duplicateBeforeOriginal (id : Nat)
deriving DecidableEq, Repr

/-- Modelled from the spec: TranslatedState::CreateNextTranslatedValue
(declared in deoptimizer.h, body not among the provided sources).  Given
one opcode and the raw snapshot it produces exactly one TranslatedValue
without allocating and without creating handles (value_ stays null, per the
deoptimizer.h comment on value_).  The three object opcodes record the
current value position in object_positions_ and take ids in encounter
order; a duplicate-object opcode looks up the already-recorded position of
its id and aborts if that id has not been recorded yet. -/
def createNextTranslatedValue (snap : Snapshot) (valueIndex : Nat)
    (pos : List Nat) (op : ValueOp) :
    Except ResolveError (TranslatedValue × List Nat) :=
  match op with
  | .register n => .ok (⟨.kTagged (snap.reg n), none⟩, pos)
  | .int32Register n => .ok (⟨.kInt32 (snap.reg n), none⟩, pos)
  | .uint32Register n => .ok (⟨.kUInt32 (snap.reg n).toNat, none⟩, pos)
  | .boolRegister n => .ok (⟨.kBoolBit (snap.reg n).toNat, none⟩, pos)
  | .doubleRegister n => .ok (⟨.kDouble (snap.dreg n), none⟩, pos)
  | .stackSlot n => .ok (⟨.kTagged (snap.stackSlot n), none⟩, pos)
  | .int32StackSlot n => .ok (⟨.kInt32 (snap.stackSlot n), none⟩, pos)
  | .uint32StackSlot n => .ok (⟨.kUInt32 (snap.stackSlot n).toNat, none⟩, pos)
  | .boolStackSlot n => .ok (⟨.kBoolBit (snap.stackSlot n).toNat, none⟩, pos)
  | .doubleStackSlot n => .ok (⟨.kDouble (snap.doubleStackSlot n), none⟩, pos)
  | .literal id => .ok (⟨.kTagged (snap.literalAt id), none⟩, pos)
  | .jsFrameFunction => .ok (⟨.kTagged snap.functionVal, none⟩, pos)
  | .capturedObject len =>
    .ok (⟨.kCapturedObject len pos.length, none⟩, pos ++ [valueIndex])
  | .argumentsObject len =>
    .ok (⟨.kArgumentsObject len pos.length, none⟩, pos ++ [valueIndex])
  | .duplicatedObject id =>
    match pos.get? id with
    | some p => .ok (⟨.kDuplicatedObject id, none⟩, pos ++ [p])
    | none => .error (.duplicateBeforeOriginal id)

/-- Modelled from the spec: the value-resolution walk of
TranslatedState::Init over one frame's store opcodes, threading the value
index and object_positions_. -/
def resolveStream (snap : Snapshot) :
    List ValueOp → Nat → List Nat →
      Except ResolveError (List TranslatedValue × List Nat)
  | [], _, pos => .ok ([], pos)
  | op :: ops, vi, pos =>
    match createNextTranslatedValue snap vi pos op with
    | .error e => .error e
    | .ok (tv, pos1) =>
      match resolveStream snap ops (vi + 1) pos1 with
      | .error e => .error e
      | .ok (tvs, posF) => .ok (tv :: tvs, posF)

/-- The opcodes that record an entry in object_positions_ (captured,
arguments and duplicated object markers). -/
def isObjectOp : ValueOp → Bool
  | .duplicatedObject _ => true
  | .argumentsObject _ => true
  | .capturedObject _ => true
  | _ => false

/-- Number of object-position-recording opcodes in a stream. -/
def objOpCount (ops : List ValueOp) : Nat :=
  (ops.filter isObjectOp).length

theorem objOpCount_cons (op : ValueOp) (l : List ValueOp) :
    objOpCount (op :: l) =
      (if isObjectOp op then 1 else 0) + objOpCount l := by
  unfold objOpCount
  rw [List.filter_cons]
  by_cases h : isObjectOp op <;> simp [h, Nat.add_comm]

theorem createNext_pos_length (snap : Snapshot) (vi : Nat) (pos : List Nat)
    (op : ValueOp) (tv : TranslatedValue) (pos1 : List Nat)
    (h : createNextTranslatedValue snap vi pos op = .ok (tv, pos1)) :
    pos1.length = pos.length + (if isObjectOp op then 1 else 0) := by
  cases op <;>
    simp only [createNextTranslatedValue, Except.ok.injEq, Prod.mk.injEq,
      isObjectOp, if_true, if_false] at h ⊢ <;>
    first
      | (rcases h with ⟨h1, h2⟩
         rw [← h2]
         simp)
      | skip
  case duplicatedObject id =>
    rcases hp : pos.get? id with _ | p <;> rw [hp] at h
    · exact absurd h (by simp)
    · simp only [Except.ok.injEq, Prod.mk.injEq] at h
      rcases h with ⟨h1, h2⟩
      rw [← h2]
      simp

theorem resolveStream_duplicate_bound (snap : Snapshot) :
    ∀ (ops : List ValueOp) (vi : Nat) (pos : List Nat)
      (vals : List TranslatedValue) (posF : List Nat),
      resolveStream snap ops vi pos = .ok (vals, posF) →
      ∀ (k : Nat) (id : Nat), ops.get? k = some (.duplicatedObject id) →
        id < pos.length + objOpCount (ops.take k) := by
  intro ops
  induction ops with
  | nil =>
    intro vi pos vals posF hres k id hk
    exact absurd hk (by simp)
  | cons op rest ih =>
    intro vi pos vals posF hres k id hk
    rw [resolveStream] at hres
    rcases hcv : createNextTranslatedValue snap vi pos op with e | tvpos1
    · rw [hcv] at hres
      exact absurd hres (by simp)
    · obtain ⟨tv, pos1⟩ := tvpos1
      rw [hcv] at hres
      dsimp only at hres
      rcases hrs : resolveStream snap rest (vi + 1) pos1 with e | tvsposF
      · rw [hrs] at hres
        exact absurd hres (by simp)
      · obtain ⟨tvs, posF1⟩ := tvsposF
        rw [hrs] at hres
        dsimp only at hres
        cases k with
        | zero =>
          simp only [List.get?_cons_zero, Option.some.injEq] at hk
          rw [hk] at hcv
          rw [createNextTranslatedValue] at hcv
          rcases hp : pos.get? id with _ | p <;> rw [hp] at hcv
          · exact absurd hcv (by simp)
          · obtain ⟨hlt, -⟩ := List.get?_eq_some.mp hp
            simpa using Nat.lt_of_lt_of_le hlt (Nat.le_add_right _ _)
        | succ k1 =>
          simp only [List.get?_cons_succ] at hk
          have hbound := ih (vi + 1) pos1 tvs posF1 hrs k1 id hk
          have hplen := createNext_pos_length snap vi pos op tv pos1 hcv
          rw [List.take_succ_cons, objOpCount_cons]
          omega

/-- C5: duplicate-object resolution only ever looks up already-resolved
ids, and a duplicate-object opcode whose id was not recorded by an earlier
object opcode of the same walk makes resolution abort with a fatal
stream-ordering violation instead of producing values.  First conjunct: on
every successful resolution, each duplicate-object opcode's id is below the
number of object opcodes resolved before it.  Second conjunct: any stream
violating that bound resolves to an error. -/
theorem duplicateObject_requires_prior_original :
    (∀ (snap : Snapshot) (ops : List ValueOp) (vals : List TranslatedValue)
        (posF : List Nat),
      resolveStream snap ops 0 [] = .ok (vals, posF) →
      ∀ (k : Nat) (id : Nat), ops.get? k = some (.duplicatedObject id) →
        id < objOpCount (ops.take k)) ∧
    (∀ (snap : Snapshot) (ops : List ValueOp),
      (∃ (k : Nat) (id : Nat), ops.get? k = some (.duplicatedObject id) ∧
        objOpCount (ops.take k) ≤ id) →
      ∃ e, resolveStream snap ops 0 [] = .error e) := by
  constructor
  · intro snap ops vals posF hres k id hk
    have := resolveStream_duplicate_bound snap ops 0 [] vals posF hres k id hk
    simpa using this
  · intro snap ops ⟨k, id, hk, hge⟩
    rcases hres : resolveStream snap ops 0 [] with e | valsposF
    · exact ⟨e, rfl⟩
    · obtain ⟨vals, posF⟩ := valsposF
      have := resolveStream_duplicate_bound snap ops 0 [] vals posF hres k id hk
      simp only [List.length_nil, Nat.zero_add] at this
      omega

/-- A trivial all-zero snapshot used by witnesses. -/
def snapZero : Snapshot :=
  ⟨fun _ => 0, fun _ => 0, fun _ => 0, fun _ => 0, fun _ => 0, 0⟩

/-- C5 witness: a stream where the duplicate names the already-resolved
captured object resolves, with the duplicate's id 0 below the one object
opcode before it; a stream starting with a duplicate of the unrecorded id 0
aborts. -/
theorem duplicateObject_requires_prior_original_witness :
    ((0 : Nat) < objOpCount
      ([ValueOp.capturedObject 0, ValueOp.duplicatedObject 0].take 1)) ∧
    (∃ e, resolveStream snapZero [ValueOp.duplicatedObject 0] 0 [] =
      .error e) := by
  constructor
  · exact duplicateObject_requires_prior_original.1 snapZero
      [ValueOp.capturedObject 0, ValueOp.duplicatedObject 0]
      [⟨.kCapturedObject 0 0, none⟩, ⟨.kDuplicatedObject 0, none⟩] [0, 0]
      (by rfl) 1 0 (by rfl)
  · exact duplicateObject_requires_prior_original.2 snapZero
      [ValueOp.duplicatedObject 0] ⟨0, 0, rfl, by decide⟩


/-
Materialization (spec section 4.4).  TranslatedState::MaterializeAt /
MaterializeObjectAt / GetAdaptedArguments are declared in deoptimizer.h but
their bodies are not among the provided sources; the pass below is
modelled from the spec.  A frame's values are a flat list in depth-first
stream order (nested values of a captured object follow it as subsequent
entries, per the kCapturedObject comment in deoptimizer.h), so the
depth-first materialization order coincides with processing the flat list
in order.  The allocator is a counter of fresh heap addresses; identity of
materialized objects is their address.
-/

/-- The mutable state of one materialization pass: the frame's translated
values (whose value_ fields receive the materialized handles) and the next
fresh heap address. -/
structure MatState where
  slots : List TranslatedValue
  nextAddr : Nat
deriving DecidableEq, Repr

/-- Store a materialized handle into the value_ field of slot i. -/
def setMemo : List TranslatedValue → Nat → Obj → List TranslatedValue
  | [], _, _ => []
  | s :: rest, 0, v => ⟨s.kind, some v⟩ :: rest
  | s :: rest, i + 1, v => s :: setMemo rest i v

/-- The kinds whose materialization records the result in the slot's
value_ field (captured objects and arguments objects). -/
def memoizingKind : TVKind → Bool
  | .kCapturedObject _ _ => true
  | .kArgumentsObject _ _ => true
  | _ => false

/-- Modelled from the spec: one step of the materialization pass
(TranslatedState::MaterializeAt), processing the value at position i of the
flat value stream.  Simple kinds convert to their handle value without
touching the allocator (int32/uint32 outside Smi range become heap
numbers, booleans become the boolean objects, doubles become heap numbers
from their bit pattern).  A captured object not yet materialized allocates
one fresh heap object and records it in the slot's value_; one already
materialized (including one restored from the per-frame-pointer
materialized-object table) is returned as is.  A duplicated object resolves
to the object recorded for the original position object_positions_[id]
(TranslatedState::MaterializeObjectAt) and fails if that original is not
materialized.  An arguments-object placeholder is never itself allocated:
it resolves to the arguments object read from the adjacent adaptor frame
(TranslatedState::GetAdaptedArguments), passed in as aargs. -/
def matStep (aargs : Obj) (pos : List Nat) (st : MatState) (i : Nat) :
    Option (Obj × MatState) :=
  match st.slots.get? i with
  | none => none
  | some slot =>
    match slot.kind with
    | .kInvalid => none
    | .kTagged raw => some (.taggedRaw raw, st)
    | .kInt32 v =>
      some (if smiValid v then Obj.smi v else Obj.heapNumber v, st)
    | .kUInt32 v =>
      some (if v ≤ 1073741823 then Obj.smi (Int.ofNat v)
        else Obj.heapNumber (Int.ofNat v), st)
    | .kBoolBit v => some (.boolean (decide (v ≠ 0)), st)
    | .kDouble bits => some (.heapNumberBits bits, st)
    | .kCapturedObject _ _ =>
      match slot.value? with
      | some v => some (v, st)
      | none =>
        some (.heapObj st.nextAddr,
          ⟨setMemo st.slots i (.heapObj st.nextAddr), st.nextAddr + 1⟩)
    | .kDuplicatedObject id =>
      match pos.get? id with
      | none => none
      | some p =>
        match st.slots.get? p with
        | none => none
        | some orig =>
          match orig.value? with
          | some v => some (v, st)
          | none => none
    | .kArgumentsObject _ _ =>
      match slot.value? with
      | some v => some (v, st)
      | none => some (aargs, ⟨setMemo st.slots i aargs, st.nextAddr⟩)

/-- Modelled from the spec: the materialization pass over a frame's whole
value stream, k values starting at position i, returning each position with
its materialized value and the final state. -/
def matLoop (aargs : Obj) (pos : List Nat) :
    MatState → Nat → Nat → Option (List (Nat × Obj) × MatState)
  | st, _, 0 => some ([], st)
  | st, i, k + 1 =>
    match matStep aargs pos st i with
    | none => none
    | some (v, st1) =>
      match matLoop aargs pos st1 (i + 1) k with
      | none => none
      | some (outs, stF) => some ((i, v) :: outs, stF)

/-- State t preserves every materialized handle recorded in state s. -/
def memoExtends (s t : MatState) : Prop :=
  ∀ (j : Nat) (sl : TranslatedValue) (w : Obj),
    s.slots.get? j = some sl → sl.value? = some w →
    ∃ tl, t.slots.get? j = some tl ∧ tl.value? = some w

theorem memoExtends_refl (s : MatState) : memoExtends s s := by
  intro j sl w h1 h2
  exact ⟨sl, h1, h2⟩

theorem memoExtends_trans {a b c : MatState} (h1 : memoExtends a b)
    (h2 : memoExtends b c) : memoExtends a c := by
  intro j sl w hj hw
  obtain ⟨tl, htl, hwl⟩ := h1 j sl w hj hw
  exact h2 j tl w htl hwl

theorem setMemo_get_self :
    ∀ (l : List TranslatedValue) (i : Nat) (v : Obj) (s : TranslatedValue),
      l.get? i = some s → (setMemo l i v).get? i = some ⟨s.kind, some v⟩ := by
  intro l
  induction l with
  | nil =>
    intro i v s h
    exact absurd h (by simp)
  | cons a rest ih =>
    intro i v s h
    cases i with
    | zero =>
      simp only [List.get?_cons_zero, Option.some.injEq] at h
      rw [h]
      rfl
    | succ i1 =>
      simp only [List.get?_cons_succ] at h
      simpa [setMemo] using ih i1 v s h

theorem setMemo_get_other :
    ∀ (l : List TranslatedValue) (i : Nat) (v : Obj) (j : Nat), j ≠ i →
      (setMemo l i v).get? j = l.get? j := by
  intro l
  induction l with
  | nil =>
    intro i v j hji
    cases i <;> rfl
  | cons a rest ih =>
    intro i v j hji
    cases i with
    | zero =>
      cases j with
      | zero => exact absurd rfl hji
      | succ j1 => rfl
    | succ i1 =>
      cases j with
      | zero => rfl
      | succ j1 =>
        simpa [setMemo] using ih i1 v j1 (fun he => hji (by rw [he]))

theorem setMemo_map_kind :
    ∀ (l : List TranslatedValue) (i : Nat) (v : Obj),
      (setMemo l i v).map TranslatedValue.kind =
        l.map TranslatedValue.kind := by
  intro l
  induction l with
  | nil =>
    intro i v
    cases i <;> rfl
  | cons a rest ih =>
    intro i v
    cases i with
    | zero => rfl
    | succ i1 =>
      simpa [setMemo] using ih i1 v

theorem mapKind_get (a b : List TranslatedValue)
    (h : a.map TranslatedValue.kind = b.map TranslatedValue.kind) (j : Nat) :
    (a.get? j).map TranslatedValue.kind =
      (b.get? j).map TranslatedValue.kind := by
  rw [← List.get?_map, ← List.get?_map, h]

theorem matStep_frame (aargs : Obj) (pos : List Nat) (st : MatState) (i : Nat)
    (v : Obj) (st1 : MatState) (h : matStep aargs pos st i = some (v, st1)) :
    st1.slots.map TranslatedValue.kind = st.slots.map TranslatedValue.kind ∧
    (∀ j, j ≠ i → st1.slots.get? j = st.slots.get? j) ∧
    st.nextAddr ≤ st1.nextAddr ∧
    (∀ sl w, st.slots.get? i = some sl → sl.value? = some w → st1 = st) ∧
    (∀ sl, st.slots.get? i = some sl → memoizingKind sl.kind = true →
      ∃ s1, st1.slots.get? i = some s1 ∧ s1.value? = some v) := by
  unfold matStep at h
  rcases hs : st.slots.get? i with _ | sl
  · rw [hs] at h
    exact absurd h (by simp)
  rw [hs] at h
  dsimp only at h
  have hsl_eq : ∀ sl2 : TranslatedValue,
      (some sl : Option TranslatedValue) = some sl2 → sl2 = sl := by
    intro sl2 hsl2
    injection hsl2 with h2
    exact h2.symm
  cases hk2 : sl.kind with
  | kInvalid =>
    rw [hk2] at h
    exact absurd h (by simp)
  | kTagged raw =>
    rw [hk2] at h
    simp only [Option.some.injEq, Prod.mk.injEq] at h
    obtain ⟨hv, hst⟩ := h
    subst hst
    refine ⟨rfl, fun j _ => rfl, Nat.le_refl _, fun _ _ _ _ => rfl, ?_⟩
    intro sl2 hsl2 hmk
    rw [hsl_eq sl2 hsl2, hk2] at hmk
    exact absurd hmk (by simp [memoizingKind])
  | kInt32 vv =>
    rw [hk2] at h
    simp only [Option.some.injEq, Prod.mk.injEq] at h
    obtain ⟨hv, hst⟩ := h
    subst hst
    refine ⟨rfl, fun j _ => rfl, Nat.le_refl _, fun _ _ _ _ => rfl, ?_⟩
    intro sl2 hsl2 hmk
    rw [hsl_eq sl2 hsl2, hk2] at hmk
    exact absurd hmk (by simp [memoizingKind])
  | kUInt32 vv =>
    rw [hk2] at h
    simp only [Option.some.injEq, Prod.mk.injEq] at h
    obtain ⟨hv, hst⟩ := h
    subst hst
    refine ⟨rfl, fun j _ => rfl, Nat.le_refl _, fun _ _ _ _ => rfl, ?_⟩
    intro sl2 hsl2 hmk
    rw [hsl_eq sl2 hsl2, hk2] at hmk
    exact absurd hmk (by simp [memoizingKind])
  | kBoolBit vv =>
    rw [hk2] at h
    simp only [Option.some.injEq, Prod.mk.injEq] at h
    obtain ⟨hv, hst⟩ := h
    subst hst
    refine ⟨rfl, fun j _ => rfl, Nat.le_refl _, fun _ _ _ _ => rfl, ?_⟩
    intro sl2 hsl2 hmk
    rw [hsl_eq sl2 hsl2, hk2] at hmk
    exact absurd hmk (by simp [memoizingKind])
  | kDouble bits =>
    rw [hk2] at h
    simp only [Option.some.injEq, Prod.mk.injEq] at h
    obtain ⟨hv, hst⟩ := h
    subst hst
    refine ⟨rfl, fun j _ => rfl, Nat.le_refl _, fun _ _ _ _ => rfl, ?_⟩
    intro sl2 hsl2 hmk
    rw [hsl_eq sl2 hsl2, hk2] at hmk
    exact absurd hmk (by simp [memoizingKind])
  | kCapturedObject len oid =>
    rw [hk2] at h
    dsimp only at h
    rcases hm : sl.value? with _ | w <;> rw [hm] at h <;> dsimp only at h
    · simp only [Option.some.injEq, Prod.mk.injEq] at h
      obtain ⟨hv, hst⟩ := h
      refine ⟨?_, ?_, ?_, ?_, ?_⟩
      · rw [← hst]
        exact setMemo_map_kind st.slots i _
      · intro j hji
        rw [← hst]
        exact setMemo_get_other st.slots i _ j hji
      · rw [← hst]
        exact Nat.le_succ _
      · intro sl2 w2 hsl2 hw2
        rw [hsl_eq sl2 hsl2] at hw2
        rw [hm] at hw2
        exact absurd hw2 (by simp)
      · intro sl2 hsl2 hmk
        refine ⟨⟨sl.kind, some (Obj.heapObj st.nextAddr)⟩, ?_, ?_⟩
        · rw [← hst]
          exact setMemo_get_self st.slots i _ sl hs
        · rw [← hv]
    · simp only [Option.some.injEq, Prod.mk.injEq] at h
      obtain ⟨hv, hst⟩ := h
      subst hst
      refine ⟨rfl, fun j _ => rfl, Nat.le_refl _, fun _ _ _ _ => rfl, ?_⟩
      intro sl2 hsl2 hmk
      refine ⟨sl, ?_, ?_⟩
      · exact hs
      · rw [hm, hv]
  | kDuplicatedObject id =>
    rw [hk2] at h
    dsimp only at h
    rcases hp : pos.get? id with _ | p <;> rw [hp] at h <;> dsimp only at h
    · exact absurd h (by simp)
    rcases ho : st.slots.get? p with _ | orig <;> rw [ho] at h <;> dsimp only at h
    · exact absurd h (by simp)
    rcases hov : orig.value? with _ | w <;> rw [hov] at h <;> dsimp only at h
    · exact absurd h (by simp)
    simp only [Option.some.injEq, Prod.mk.injEq] at h
    obtain ⟨hv, hst⟩ := h
    subst hst
    refine ⟨rfl, fun j _ => rfl, Nat.le_refl _, fun _ _ _ _ => rfl, ?_⟩
    intro sl2 hsl2 hmk
    rw [hsl_eq sl2 hsl2, hk2] at hmk
    exact absurd hmk (by simp [memoizingKind])
  | kArgumentsObject len oid =>
    rw [hk2] at h
    dsimp only at h
    rcases hm : sl.value? with _ | w <;> rw [hm] at h <;> dsimp only at h
    · simp only [Option.some.injEq, Prod.mk.injEq] at h
      obtain ⟨hv, hst⟩ := h
      refine ⟨?_, ?_, ?_, ?_, ?_⟩
      · rw [← hst]
        exact setMemo_map_kind st.slots i _
      · intro j hji
        rw [← hst]
        exact setMemo_get_other st.slots i _ j hji
      · rw [← hst]
      · intro sl2 w2 hsl2 hw2
        rw [hsl_eq sl2 hsl2] at hw2
        rw [hm] at hw2
        exact absurd hw2 (by simp)
      · intro sl2 hsl2 hmk
        refine ⟨⟨sl.kind, some aargs⟩, ?_, ?_⟩
        · rw [← hst]
          exact setMemo_get_self st.slots i _ sl hs
        · rw [← hv]
    · simp only [Option.some.injEq, Prod.mk.injEq] at h
      obtain ⟨hv, hst⟩ := h
      subst hst
      refine ⟨rfl, fun j _ => rfl, Nat.le_refl _, fun _ _ _ _ => rfl, ?_⟩
      intro sl2 hsl2 hmk
      refine ⟨sl, ?_, ?_⟩
      · exact hs
      · rw [hm, hv]

theorem matStep_memoExtends (aargs : Obj) (pos : List Nat) (st : MatState)
    (i : Nat) (v : Obj) (st1 : MatState)
    (h : matStep aargs pos st i = some (v, st1)) : memoExtends st st1 := by
  obtain ⟨hK, hL, hA, hU, hR⟩ := matStep_frame aargs pos st i v st1 h
  intro j sl w hj hw
  by_cases hji : j = i
  · subst hji
    rw [hU sl w hj hw]
    exact ⟨sl, hj, hw⟩
  · rw [hL j hji]
    exact ⟨sl, hj, hw⟩

theorem matStep_replay (aargs : Obj) (pos : List Nat) (st : MatState) (i : Nat)
    (v : Obj) (st1 : MatState) (T : MatState)
    (h : matStep aargs pos st i = some (v, st1))
    (hk : T.slots.map TranslatedValue.kind = st.slots.map TranslatedValue.kind)
    (he : memoExtends st1 T) :
    matStep aargs pos T i = some (v, T) := by
  have hUR := matStep_frame aargs pos st i v st1 h
  obtain ⟨hK, hL, hA, hU, hR⟩ := hUR
  unfold matStep at h
  rcases hs : st.slots.get? i with _ | sl
  · rw [hs] at h
    exact absurd h (by simp)
  rw [hs] at h
  dsimp only at h
  have hTi := mapKind_get T.slots st.slots hk i
  rw [hs] at hTi
  rcases hT : T.slots.get? i with _ | tl
  · rw [hT] at hTi
    exact absurd hTi (by simp)
  rw [hT] at hTi
  simp only [Option.map_some'] at hTi
  injection hTi with tlk
  unfold matStep
  rw [hT]
  dsimp only
  cases hk2 : sl.kind with
  | kInvalid =>
    rw [hk2] at h
    exact absurd h (by simp)
  | kTagged raw =>
    rw [hk2] at h
    simp only [Option.some.injEq, Prod.mk.injEq] at h
    rw [tlk, hk2]
    dsimp only
    rw [h.1]
  | kInt32 vv =>
    rw [hk2] at h
    simp only [Option.some.injEq, Prod.mk.injEq] at h
    rw [tlk, hk2]
    dsimp only
    rw [h.1]
  | kUInt32 vv =>
    rw [hk2] at h
    simp only [Option.some.injEq, Prod.mk.injEq] at h
    rw [tlk, hk2]
    dsimp only
    rw [h.1]
  | kBoolBit vv =>
    rw [hk2] at h
    simp only [Option.some.injEq, Prod.mk.injEq] at h
    rw [tlk, hk2]
    dsimp only
    rw [h.1]
  | kDouble bits =>
    rw [hk2] at h
    simp only [Option.some.injEq, Prod.mk.injEq] at h
    rw [tlk, hk2]
    dsimp only
    rw [h.1]
  | kCapturedObject len oid =>
    rw [hk2] at h
    dsimp only at h
    have hmk : memoizingKind sl.kind = true := by
      rw [hk2]
      rfl
    obtain ⟨s1, hs1, hs1v⟩ := hR sl hs hmk
    obtain ⟨tl2, hT2, hT2v⟩ := he i s1 v hs1 hs1v
    rw [hT] at hT2
    injection hT2 with hT2
    rw [tlk, hk2]
    dsimp only
    rw [hT2, hT2v]
  | kDuplicatedObject id =>
    rw [hk2] at h
    dsimp only at h
    rcases hp : pos.get? id with _ | p <;> rw [hp] at h <;> dsimp only at h
    · exact absurd h (by simp)
    rcases ho : st.slots.get? p with _ | orig <;> rw [ho] at h <;> dsimp only at h
    · exact absurd h (by simp)
    rcases hov : orig.value? with _ | w <;> rw [hov] at h <;> dsimp only at h
    · exact absurd h (by simp)
    simp only [Option.some.injEq, Prod.mk.injEq] at h
    obtain ⟨hv, hst⟩ := h
    subst hst
    obtain ⟨torig, hTp, hTpv⟩ := he p orig w ho hov
    rw [tlk, hk2]
    dsimp only
    rw [hp]
    dsimp only
    rw [hTp]
    dsimp only
    rw [hTpv]
    dsimp only
    rw [hv]
  | kArgumentsObject len oid =>
    rw [hk2] at h
    dsimp only at h
    have hmk : memoizingKind sl.kind = true := by
      rw [hk2]
      rfl
    obtain ⟨s1, hs1, hs1v⟩ := hR sl hs hmk
    obtain ⟨tl2, hT2, hT2v⟩ := he i s1 v hs1 hs1v
    rw [hT] at hT2
    injection hT2 with hT2
    rw [tlk, hk2]
    dsimp only
    rw [hT2, hT2v]

theorem matLoop_frame (aargs : Obj) (pos : List Nat) :
    ∀ (k : Nat) (st : MatState) (i : Nat) (outs : List (Nat × Obj))
      (stF : MatState),
      matLoop aargs pos st i k = some (outs, stF) →
      stF.slots.map TranslatedValue.kind = st.slots.map TranslatedValue.kind ∧
      memoExtends st stF ∧
      st.nextAddr ≤ stF.nextAddr ∧
      (∀ j, j < i ∨ i + k ≤ j → stF.slots.get? j = st.slots.get? j) := by
  intro k
  induction k with
  | zero =>
    intro st i outs stF h
    rw [matLoop] at h
    simp only [Option.some.injEq, Prod.mk.injEq] at h
    obtain ⟨houts, hst⟩ := h
    subst hst
    exact ⟨rfl, memoExtends_refl _, Nat.le_refl _, fun j _ => rfl⟩
  | succ k1 ih =>
    intro st i outs stF h
    rw [matLoop] at h
    rcases hstep : matStep aargs pos st i with _ | vst1 <;> rw [hstep] at h
    · exact absurd h (by simp)
    obtain ⟨v, st1⟩ := vst1
    dsimp only at h
    rcases hrest : matLoop aargs pos st1 (i + 1) k1 with _ | outsF <;>
      rw [hrest] at h
    · exact absurd h (by simp)
    obtain ⟨outs1, stF1⟩ := outsF
    dsimp only at h
    simp only [Option.some.injEq, Prod.mk.injEq] at h
    obtain ⟨houts, hstF⟩ := h
    subst hstF
    obtain ⟨hK1, hL1, hA1, hU1, hR1⟩ := matStep_frame aargs pos st i v st1 hstep
    have hE1 := matStep_memoExtends aargs pos st i v st1 hstep
    obtain ⟨hK2, hE2, hA2, hLoc2⟩ := ih st1 (i + 1) outs1 stF1 hrest
    refine ⟨hK2.trans hK1, memoExtends_trans hE1 hE2,
      Nat.le_trans hA1 hA2, ?_⟩
    intro j hj
    have hj1 : j < i + 1 ∨ i + 1 + k1 ≤ j := by omega
    rw [hLoc2 j hj1, hL1 j (by omega)]

theorem matLoop_entry (aargs : Obj) (pos : List Nat) :
    ∀ (k : Nat) (st : MatState) (i : Nat) (outs : List (Nat × Obj))
      (stF : MatState) (p : Nat) (vp : Obj),
      matLoop aargs pos st i k = some (outs, stF) →
      (p, vp) ∈ outs →
      ∃ stP stP1, matStep aargs pos stP p = some (vp, stP1) ∧
        stP.slots.map TranslatedValue.kind =
          st.slots.map TranslatedValue.kind ∧
        memoExtends stP1 stF ∧
        i ≤ p ∧
        (∀ j, p ≤ j → stP.slots.get? j = st.slots.get? j) := by
  intro k
  induction k with
  | zero =>
    intro st i outs stF p vp h hmem
    rw [matLoop] at h
    simp only [Option.some.injEq, Prod.mk.injEq] at h
    obtain ⟨houts, hst⟩ := h
    rw [← houts] at hmem
    exact absurd hmem (by simp)
  | succ k1 ih =>
    intro st i outs stF p vp h hmem
    rw [matLoop] at h
    rcases hstep : matStep aargs pos st i with _ | vst1 <;> rw [hstep] at h
    · exact absurd h (by simp)
    obtain ⟨v, st1⟩ := vst1
    dsimp only at h
    rcases hrest : matLoop aargs pos st1 (i + 1) k1 with _ | outsF <;>
      rw [hrest] at h
    · exact absurd h (by simp)
    obtain ⟨outs1, stF1⟩ := outsF
    dsimp only at h
    simp only [Option.some.injEq, Prod.mk.injEq] at h
    obtain ⟨houts, hstF⟩ := h
    subst hstF
    rw [← houts] at hmem
    obtain ⟨hK1, hL1, hA1, hU1, hR1⟩ := matStep_frame aargs pos st i v st1 hstep
    rcases List.mem_cons.mp hmem with heq | hmem1
    · simp only [Prod.mk.injEq] at heq
      obtain ⟨hp, hv⟩ := heq
      refine ⟨st, st1, ?_, rfl, ?_, ?_, fun j _ => rfl⟩
      · rw [hp, hv]
        exact hstep
      · exact (matLoop_frame aargs pos k1 st1 (i + 1) outs1 stF1 hrest).2.1
      · omega
    · obtain ⟨stP, stP1, hstepP, hkP, heP, hip, hlocP⟩ :=
        ih st1 (i + 1) outs1 stF1 p vp hrest hmem1
      refine ⟨stP, stP1, hstepP, hkP.trans hK1, heP, by omega, ?_⟩
      intro j hj
      rw [hlocP j hj, hL1 j (by omega)]

theorem matLoop_replay (aargs : Obj) (pos : List Nat) :
    ∀ (k : Nat) (st : MatState) (i : Nat) (outs : List (Nat × Obj))
      (stF : MatState) (T : MatState),
      matLoop aargs pos st i k = some (outs, stF) →
      T.slots.map TranslatedValue.kind = st.slots.map TranslatedValue.kind →
      memoExtends stF T →
      matLoop aargs pos T i k = some (outs, T) := by
  intro k
  induction k with
  | zero =>
    intro st i outs stF T h hk he
    rw [matLoop] at h
    simp only [Option.some.injEq, Prod.mk.injEq] at h
    obtain ⟨houts, hst⟩ := h
    rw [matLoop, ← houts]
  | succ k1 ih =>
    intro st i outs stF T h hk he
    rw [matLoop] at h
    rcases hstep : matStep aargs pos st i with _ | vst1 <;> rw [hstep] at h
    · exact absurd h (by simp)
    obtain ⟨v, st1⟩ := vst1
    dsimp only at h
    rcases hrest : matLoop aargs pos st1 (i + 1) k1 with _ | outsF <;>
      rw [hrest] at h
    · exact absurd h (by simp)
    obtain ⟨outs1, stF1⟩ := outsF
    dsimp only at h
    simp only [Option.some.injEq, Prod.mk.injEq] at h
    obtain ⟨houts, hstF⟩ := h
    subst hstF
    obtain ⟨hK1, hL1, hA1, hU1, hR1⟩ := matStep_frame aargs pos st i v st1 hstep
    have hE2 := (matLoop_frame aargs pos k1 st1 (i + 1) outs1 stF1 hrest).2.1
    have hstepT : matStep aargs pos T i = some (v, T) :=
      matStep_replay aargs pos st i v st1 T hstep hk
        (memoExtends_trans hE2 he)
    have hrestT : matLoop aargs pos T (i + 1) k1 = some (outs1, T) :=
      ih st1 (i + 1) outs1 stF1 T hrest (hk.trans hK1.symm) he
    rw [matLoop, hstepT]
    dsimp only
    rw [hrestT]
    dsimp only
    rw [← houts]

theorem matStep_captured_fresh (aargs : Obj) (pos : List Nat) (st : MatState)
    (i len oid : Nat) (v : Obj) (st1 : MatState)
    (hs : st.slots.get? i = some ⟨.kCapturedObject len oid, none⟩)
    (h : matStep aargs pos st i = some (v, st1)) :
    v = Obj.heapObj st.nextAddr ∧ st1.nextAddr = st.nextAddr + 1 := by
  unfold matStep at h
  rw [hs] at h
  dsimp only at h
  simp only [Option.some.injEq, Prod.mk.injEq] at h
  refine ⟨h.1.symm, ?_⟩
  rw [← h.2]

theorem matStep_duplicated_reads (aargs : Obj) (pos : List Nat)
    (st : MatState) (i id : Nat) (v : Obj) (st1 : MatState)
    (tq : TranslatedValue) (hs : st.slots.get? i = some tq)
    (hkq : tq.kind = .kDuplicatedObject id)
    (h : matStep aargs pos st i = some (v, st1)) :
    st1 = st ∧ ∃ (p : Nat) (orig : TranslatedValue), pos.get? id = some p ∧
      st.slots.get? p = some orig ∧ orig.value? = some v := by
  unfold matStep at h
  rw [hs] at h
  dsimp only at h
  rw [hkq] at h
  dsimp only at h
  rcases hp : pos.get? id with _ | p <;> rw [hp] at h <;> dsimp only at h
  · exact absurd h (by simp)
  rcases ho : st.slots.get? p with _ | orig <;> rw [ho] at h <;> dsimp only at h
  · exact absurd h (by simp)
  rcases hov : orig.value? with _ | w <;> rw [hov] at h <;> dsimp only at h
  · exact absurd h (by simp)
  simp only [Option.some.injEq, Prod.mk.injEq] at h
  refine ⟨h.2.symm, p, orig, rfl, ho, ?_⟩
  rw [hov, h.1]

/-- C1: in any materialization pass over a value stream in which one
captured object at position p is also referenced from position q through a
duplicate-object value naming its object id (object_positions_[id] = p),
the two positions resolve to the same single heap object: the duplicate's
value is pointer-equal to the original's, the original's value is one
freshly allocated heap object, and the final state records that one object
for the original position. -/
theorem capturedObject_duplicate_pointer_equal (aargs : Obj) (pos : List Nat)
    (st0 : MatState) (n : Nat) (outs : List (Nat × Obj)) (stF : MatState)
    (p q len oid id : Nat) (vp vq : Obj)
    (hloop : matLoop aargs pos st0 0 n = some (outs, stF))
    (hp : st0.slots.get? p = some ⟨.kCapturedObject len oid, none⟩)
    (hq : st0.slots.get? q = some ⟨.kDuplicatedObject id, none⟩)
    (hpos : pos.get? id = some p)
    (hmp : (p, vp) ∈ outs) (hmq : (q, vq) ∈ outs) :
    vq = vp ∧ (∃ addr, vp = Obj.heapObj addr) ∧
    (∃ t, stF.slots.get? p = some t ∧ t.value? = some vp) := by
  obtain ⟨stP, stP1, hstepP, hkP, heP, hipP, hlocP⟩ :=
    matLoop_entry aargs pos n st0 0 outs stF p vp hloop hmp
  have hsP : stP.slots.get? p = some ⟨.kCapturedObject len oid, none⟩ := by
    rw [hlocP p (Nat.le_refl p), hp]
  obtain ⟨hvp, haddr⟩ :=
    matStep_captured_fresh aargs pos stP p len oid vp stP1 hsP hstepP
  obtain ⟨hKp, hLp, hAp, hUp, hRp⟩ :=
    matStep_frame aargs pos stP p vp stP1 hstepP
  obtain ⟨s1, hs1, hs1v⟩ := hRp _ hsP (by rfl)
  obtain ⟨t, ht, htv⟩ := heP p s1 vp hs1 hs1v
  obtain ⟨stQ, stQ1, hstepQ, hkQ, heQ, hipQ, hlocQ⟩ :=
    matLoop_entry aargs pos n st0 0 outs stF q vq hloop hmq
  have hsQmap := mapKind_get stQ.slots st0.slots hkQ q
  rw [hq] at hsQmap
  rcases hsQ : stQ.slots.get? q with _ | tq
  · rw [hsQ] at hsQmap
    exact absurd hsQmap (by simp)
  rw [hsQ] at hsQmap
  simp only [Option.map_some'] at hsQmap
  injection hsQmap with htqk
  obtain ⟨hstQeq, p2, orig, hp2, horig, horigv⟩ :=
    matStep_duplicated_reads aargs pos stQ q id vq stQ1 tq hsQ htqk hstepQ
  rw [hpos] at hp2
  injection hp2 with hp2
  subst hp2
  have heQ2 : memoExtends stQ stF := by
    rw [← hstQeq]
    exact heQ
  obtain ⟨t2, ht2, ht2v⟩ := heQ2 p orig vq horig horigv
  rw [ht] at ht2
  injection ht2 with ht2
  rw [← ht2] at ht2v
  rw [htv] at ht2v
  injection ht2v with hvv
  exact ⟨hvv.symm, ⟨stP.nextAddr, hvp⟩, ⟨t, ht, htv⟩⟩

/-- C1 witness: the two-value stream with a captured object at position 0
and a duplicate of object id 0 at position 1; both positions materialize to
the single freshly allocated object at address 0. -/
theorem capturedObject_duplicate_pointer_equal_witness :
    Obj.heapObj 0 = Obj.heapObj 0 ∧
    (∃ addr, Obj.heapObj 0 = Obj.heapObj addr) ∧
    (∃ t, (⟨[⟨.kCapturedObject 0 0, some (Obj.heapObj 0)⟩,
        ⟨.kDuplicatedObject 0, none⟩], 1⟩ : MatState).slots.get? 0 =
      some t ∧ t.value? = some (Obj.heapObj 0)) :=
  capturedObject_duplicate_pointer_equal Obj.argumentsMarker [0]
    ⟨[⟨.kCapturedObject 0 0, none⟩, ⟨.kDuplicatedObject 0, none⟩], 0⟩ 2
    [(0, Obj.heapObj 0), (1, Obj.heapObj 0)]
    ⟨[⟨.kCapturedObject 0 0, some (Obj.heapObj 0)⟩,
      ⟨.kDuplicatedObject 0, none⟩], 1⟩
    0 1 0 0 0 (Obj.heapObj 0) (Obj.heapObj 0)
    (by rfl) (by rfl) (by rfl) (by rfl) (by decide) (by decide)

/-
The per-frame-pointer materialized-object table
(MaterializedObjectStore, deoptimizer.h): keyed by physical frame pointer,
it maps previously synthesized heap objects back to their object id so
repeated deoptimizations of the same still-live frame reuse identical
object identity.  Get/Set are declared in deoptimizer.h; their bodies are
not among the provided sources.
-/

/-- Lookup by frame pointer in the store's association list (frame_fps_
plus the per-frame tables). -/
def storeLookup : List (Nat × List (Option Obj)) → Nat →
    Option (List (Option Obj))
  | [], _ => none
  | e :: rest, fp => if e.1 = fp then some e.2 else storeLookup rest fp

/-- Modelled from the spec: MaterializedObjectStore::Get — the previously
materialized objects recorded for the frame pointer, or a fresh all-empty
table when this frame was never materialized. -/
def materializedGet (store : List (Nat × List (Option Obj))) (fp len : Nat) :
    List (Option Obj) :=
  match storeLookup store fp with
  | some l => l
  | none => List.replicate len none

/-- Modelled from the spec: MaterializedObjectStore::Set — record the
materialized objects of the frame under its frame pointer. -/
def materializedSet (store : List (Nat × List (Option Obj))) (fp : Nat)
    (objs : List (Option Obj)) : List (Nat × List (Option Obj)) :=
  (fp, objs) :: store

/-- Rebuild TranslatedState slots from the value kinds and a table of
previously materialized objects
(TranslatedState::UpdateFromPreviouslyMaterializedObjects). -/
def mkSlots (kinds : List TVKind) (memo : List (Option Obj)) :
    List TranslatedValue :=
  List.zipWith (fun k m => ⟨k, m⟩) kinds memo

/-- Modelled from the spec: one deoptimization's materialization of the
frame identified by frame pointer fp — restore previously materialized
objects from the table, run the materialization pass, and store the
resulting objects back under fp.  Returns the per-position values, the
number of fresh heap allocations performed, and the updated store. -/
def deoptMaterializeFrame (aargs : Obj) (pos : List Nat)
    (kinds : List TVKind) (store : List (Nat × List (Option Obj)))
    (fp heapStart : Nat) :
    Option (List (Nat × Obj) × Nat × List (Nat × List (Option Obj))) :=
  match matLoop aargs pos
      ⟨mkSlots kinds (materializedGet store fp kinds.length), heapStart⟩
      0 kinds.length with
  | none => none
  | some (outs, stF) =>
    some (outs, stF.nextAddr - heapStart,
      materializedSet store fp (stF.slots.map TranslatedValue.value?))

theorem storeLookup_set (store : List (Nat × List (Option Obj))) (fp : Nat)
    (objs : List (Option Obj)) :
    storeLookup (materializedSet store fp objs) fp = some objs := by
  simp [materializedSet, storeLookup]

theorem mkSlots_map_kind :
    ∀ (kinds : List TVKind) (memo : List (Option Obj)),
      kinds.length ≤ memo.length →
      (mkSlots kinds memo).map TranslatedValue.kind = kinds := by
  intro kinds
  induction kinds with
  | nil =>
    intro memo hlen
    rfl
  | cons k rest ih =>
    intro memo hlen
    cases memo with
    | nil => exact absurd hlen (by simp)
    | cons m mrest =>
      simp only [mkSlots, List.zipWith_cons_cons, List.map_cons] at ih ⊢
      simp only [List.length_cons] at hlen
      rw [ih mrest (by omega)]

theorem mkSlots_self (l : List TranslatedValue) :
    mkSlots (l.map TranslatedValue.kind)
      (l.map (fun s => s.value?)) = l := by
  induction l with
  | nil => rfl
  | cons a rest ih =>
    simp only [List.map_cons, mkSlots, List.zipWith_cons_cons] at ih ⊢
    rw [ih]

theorem matStep_slot_exists (aargs : Obj) (pos : List Nat) (st : MatState)
    (i : Nat) (v : Obj) (st1 : MatState)
    (h : matStep aargs pos st i = some (v, st1)) :
    i < st.slots.length := by
  unfold matStep at h
  rcases hs : st.slots.get? i with _ | sl
  · rw [hs] at h
    exact absurd h (by simp)
  · obtain ⟨hlt, -⟩ := List.get?_eq_some.mp hs
    exact hlt

theorem matLoop_bound (aargs : Obj) (pos : List Nat) :
    ∀ (k : Nat) (st : MatState) (i : Nat) (outs : List (Nat × Obj))
      (stF : MatState),
      matLoop aargs pos st i k = some (outs, stF) →
      k = 0 ∨ i + k ≤ st.slots.length := by
  intro k
  induction k with
  | zero =>
    intro st i outs stF h
    exact Or.inl rfl
  | succ k1 ih =>
    intro st i outs stF h
    rw [matLoop] at h
    rcases hstep : matStep aargs pos st i with _ | vst1 <;> rw [hstep] at h
    · exact absurd h (by simp)
    obtain ⟨v, st1⟩ := vst1
    dsimp only at h
    rcases hrest : matLoop aargs pos st1 (i + 1) k1 with _ | outsF <;>
      rw [hrest] at h
    · exact absurd h (by simp)
    obtain ⟨outs1, stF1⟩ := outsF
    have hi := matStep_slot_exists aargs pos st i v st1 hstep
    have hlen : st1.slots.length = st.slots.length := by
      have hK := (matStep_frame aargs pos st i v st1 hstep).1
      have := congrArg List.length hK
      simpa using this
    rcases ih st1 (i + 1) outs1 stF1 hrest with h0 | hle
    · right
      omega
    · right
      omega

/-- Two states with the same slots extend each other's memo tables. -/
theorem memoExtends_same_slots (s t : MatState) (h : s.slots = t.slots) :
    memoExtends s t := by
  intro j sl w hj hw
  rw [h] at hj
  exact ⟨sl, hj, hw⟩

/-- C3: materialization of the same still-live physical frame (keyed by
its frame pointer) is idempotent: a second deoptimization of that frame
reads the per-frame-pointer materialized-object table written by the
first, returns the identical object instances for every value position,
and allocates no fresh objects. -/
theorem rematerialization_idempotent (aargs : Obj) (pos : List Nat)
    (kinds : List TVKind) (store : List (Nat × List (Option Obj)))
    (fp heapStart heapStart2 : Nat) (outs1 : List (Nat × Obj))
    (allocs1 : Nat) (store1 : List (Nat × List (Option Obj)))
    (h1 : deoptMaterializeFrame aargs pos kinds store fp heapStart =
      some (outs1, allocs1, store1)) :
    ∃ store2, deoptMaterializeFrame aargs pos kinds store1 fp heapStart2 =
      some (outs1, 0, store2) := by
  unfold deoptMaterializeFrame at h1
  rcases hloop : matLoop aargs pos
      ⟨mkSlots kinds (materializedGet store fp kinds.length), heapStart⟩
      0 kinds.length with _ | outsF <;> rw [hloop] at h1
  · exact absurd h1 (by simp)
  obtain ⟨outsA, stF⟩ := outsF
  dsimp only at h1
  simp only [Option.some.injEq, Prod.mk.injEq] at h1
  obtain ⟨houts, hallocs, hstore1⟩ := h1
  have hmemo0len : kinds.length ≤
      (materializedGet store fp kinds.length).length := by
    rcases matLoop_bound aargs pos kinds.length _ 0 outsA stF hloop with h0 | hle
    · rw [h0]
      exact Nat.zero_le _
    · dsimp only at hle
      rw [show (mkSlots kinds (materializedGet store fp kinds.length)).length =
          min kinds.length (materializedGet store fp kinds.length).length from
          by simp [mkSlots]] at hle
      omega
  have hst0kind : (mkSlots kinds
      (materializedGet store fp kinds.length)).map TranslatedValue.kind =
      kinds := mkSlots_map_kind kinds _ hmemo0len
  have hstFkind : stF.slots.map TranslatedValue.kind = kinds := by
    have hK := (matLoop_frame aargs pos kinds.length _ 0 outsA stF hloop).1
    dsimp only at hK
    rw [hK, hst0kind]
  have hget1 : materializedGet store1 fp kinds.length =
      stF.slots.map (fun s => s.value?) := by
    rw [← hstore1]
    unfold materializedGet
    rw [storeLookup_set]
  have hslots2 : mkSlots kinds (materializedGet store1 fp kinds.length) =
      stF.slots := by
    rw [hget1, ← hstFkind]
    exact mkSlots_self stF.slots
  have hreplay : matLoop aargs pos ⟨stF.slots, heapStart2⟩ 0 kinds.length =
      some (outsA, ⟨stF.slots, heapStart2⟩) := by
    apply matLoop_replay aargs pos kinds.length _ 0 outsA stF
      ⟨stF.slots, heapStart2⟩ hloop
    · dsimp only
      rw [hstFkind, hst0kind]
    · exact memoExtends_same_slots stF ⟨stF.slots, heapStart2⟩ rfl
  refine ⟨materializedSet store1 fp
    (stF.slots.map TranslatedValue.value?), ?_⟩
  unfold deoptMaterializeFrame
  rw [hslots2, hreplay]
  dsimp only
  rw [Nat.sub_self, houts]

/-- C3 witness: re-materializing the one-captured-object frame at frame
pointer 7 after a first materialization from an empty store returns the
same single object with zero fresh allocations. -/
theorem rematerialization_idempotent_witness :
    ∃ store2, deoptMaterializeFrame Obj.argumentsMarker [0]
      [TVKind.kCapturedObject 0 0]
      (materializedSet [] 7 [some (Obj.heapObj 0)]) 7 5 =
      some ([(0, Obj.heapObj 0)], 0, store2) :=
  rematerialization_idempotent Obj.argumentsMarker [0]
    [TVKind.kCapturedObject 0 0] [] 7 0 5 [(0, Obj.heapObj 0)] 1
    (materializedSet [] 7 [some (Obj.heapObj 0)]) (by rfl)

/-
Arguments-object placeholders (C4).  kArgumentsObject values exist only to
keep indexing in sync and should not be materialized (deoptimizer.h
comment on TranslatedValue::Kind); the adapted argument values are read
from the adjacent arguments-adaptor frame via GetAdaptedArguments.
-/

/-- An arguments-adaptor frame adjacent to the deoptimizing frame: its
frame pointer and the actual (adapted) argument values it holds. -/
structure AdjacentAdaptorFrame where
  fp : Nat
  args : List Obj

/-- Modelled from the spec: TranslatedState::GetAdaptedArguments (declared
in deoptimizer.h, body not among the provided sources) — the arguments
object read directly out of the adjacent arguments-adaptor frame: its
identity is the adaptor frame's and its length is that frame's actual
argument count; nothing is allocated to produce it. -/
def getAdaptedArguments (f : AdjacentAdaptorFrame) : Obj :=
  .adaptedArgs f.fp f.args.length

theorem matStep_arguments_fresh (aargs : Obj) (pos : List Nat)
    (st : MatState) (i len oid : Nat) (v : Obj) (st1 : MatState)
    (hs : st.slots.get? i = some ⟨.kArgumentsObject len oid, none⟩)
    (h : matStep aargs pos st i = some (v, st1)) :
    v = aargs ∧ st1 = ⟨setMemo st.slots i aargs, st.nextAddr⟩ := by
  unfold matStep at h
  rw [hs] at h
  dsimp only at h
  simp only [Option.some.injEq, Prod.mk.injEq] at h
  exact ⟨h.1.symm, h.2.symm⟩

/-- C4: an arguments-object placeholder is never itself materialized into
a heap allocation.  Materializing it returns exactly the arguments object
read from the adjacent arguments-adaptor frame and leaves the allocation
counter untouched; that object is never a freshly allocated heap object;
the step preserves the kind stream, so the placeholder only keeps
positional indexing of the value stream consistent; and in any full
materialization pass the placeholder position's output value is the
adaptor frame's arguments object. -/
theorem argumentsObject_placeholder_never_allocated
    (f : AdjacentAdaptorFrame) (pos : List Nat) (st : MatState)
    (i len oid : Nat)
    (hs : st.slots.get? i = some ⟨.kArgumentsObject len oid, none⟩) :
    matStep (getAdaptedArguments f) pos st i =
      some (getAdaptedArguments f,
        ⟨setMemo st.slots i (getAdaptedArguments f), st.nextAddr⟩) ∧
    (∀ addr, getAdaptedArguments f ≠ Obj.heapObj addr) ∧
    (setMemo st.slots i (getAdaptedArguments f)).map TranslatedValue.kind =
      st.slots.map TranslatedValue.kind ∧
    (∀ (st0 : MatState) (n : Nat) (outs : List (Nat × Obj))
        (stF : MatState) (vi : Obj),
      matLoop (getAdaptedArguments f) pos st0 0 n = some (outs, stF) →
      st0.slots.get? i = some ⟨.kArgumentsObject len oid, none⟩ →
      (i, vi) ∈ outs → vi = getAdaptedArguments f) := by
  refine ⟨?_, ?_, ?_, ?_⟩
  · unfold matStep
    rw [hs]
  · intro addr
    simp [getAdaptedArguments]
  · exact setMemo_map_kind st.slots i _
  · intro st0 n outs stF vi hloop hs0 hmem
    obtain ⟨stI, stI1, hstepI, hkI, heI, hiI, hlocI⟩ :=
      matLoop_entry (getAdaptedArguments f) pos n st0 0 outs stF i vi
        hloop hmem
    have hsI : stI.slots.get? i =
        some ⟨.kArgumentsObject len oid, none⟩ := by
      rw [hlocI i (Nat.le_refl i), hs0]
    exact (matStep_arguments_fresh (getAdaptedArguments f) pos stI i len oid
      vi stI1 hsI hstepI).1

/-- C4 witness: a one-value frame whose single value is an
arguments-object placeholder of length 3, with a 3-argument adaptor frame
at fp 9 adjacent; the instantiated conclusion of the theorem. -/
theorem argumentsObject_placeholder_never_allocated_witness :
    matStep (getAdaptedArguments ⟨9, [Obj.smi 1, Obj.smi 2, Obj.smi 3]⟩) []
      ⟨[⟨.kArgumentsObject 3 0, none⟩], 0⟩ 0 =
      some (getAdaptedArguments ⟨9, [Obj.smi 1, Obj.smi 2, Obj.smi 3]⟩,
        ⟨setMemo [⟨.kArgumentsObject 3 0, none⟩] 0
          (getAdaptedArguments ⟨9, [Obj.smi 1, Obj.smi 2, Obj.smi 3]⟩), 0⟩) ∧
    (∀ addr, getAdaptedArguments ⟨9, [Obj.smi 1, Obj.smi 2, Obj.smi 3]⟩ ≠
      Obj.heapObj addr) ∧
    (setMemo [⟨.kArgumentsObject 3 0, none⟩] 0
      (getAdaptedArguments ⟨9, [Obj.smi 1, Obj.smi 2, Obj.smi 3]⟩)).map
        TranslatedValue.kind =
      ([⟨.kArgumentsObject 3 0, none⟩] :
        List TranslatedValue).map TranslatedValue.kind ∧
    (∀ (st0 : MatState) (n : Nat) (outs : List (Nat × Obj))
        (stF : MatState) (vi : Obj),
      matLoop (getAdaptedArguments ⟨9, [Obj.smi 1, Obj.smi 2, Obj.smi 3]⟩)
        [] st0 0 n = some (outs, stF) →
      st0.slots.get? 0 = some ⟨.kArgumentsObject 3 0, none⟩ →
      (0, vi) ∈ outs →
        vi = getAdaptedArguments ⟨9, [Obj.smi 1, Obj.smi 2, Obj.smi 3]⟩) :=
  argumentsObject_placeholder_never_allocated
    ⟨9, [Obj.smi 1, Obj.smi 2, Obj.smi 3]⟩ []
    ⟨[⟨.kArgumentsObject 3 0, none⟩], 0⟩ 0 3 0 (by rfl)

/-
GetRawValue (C10).  deoptimizer.h declares it with the comment:
allocation-less getter of the value; returns heap()->arguments_marker() if
allocation would be necessary to get the value.
-/

/-- The kinds whose true value requires heap allocation to produce before
materialization: captured objects, duplicated objects and arguments
objects. -/
def deferredKind : TVKind → Bool
  | .kCapturedObject _ _ => true
  | .kDuplicatedObject _ => true
  | .kArgumentsObject _ _ => true
  | _ => false

/-- Modelled from the spec: TranslatedValue::GetRawValue (declared in
deoptimizer.h with its allocation-less contract).  A value whose value_
handle is already set returns it; otherwise tagged values return the raw
literal, Smi-representable int32/uint32 values and bool bits are produced
without allocation, and everything else — doubles and the three deferred
object kinds — would require allocation, so the arguments-marker sentinel
is returned.  The function takes no allocator state: it cannot allocate. -/
def getRawValue (tv : TranslatedValue) : Obj :=
  match tv.value? with
  | some v => v
  | none =>
    match tv.kind with
    | .kTagged raw => .taggedRaw raw
    | .kInt32 v => if smiValid v then .smi v else .argumentsMarker
    | .kUInt32 v =>
      if v ≤ 1073741823 then .smi (Int.ofNat v) else .argumentsMarker
    | .kBoolBit v => .boolean (decide (v ≠ 0))
    | _ => .argumentsMarker

/-- C10: GetRawValue is a pure function of the translated value (it takes
no allocator state, so it never allocates), and on every value of a kind
requiring heap allocation to produce — captured object, duplicated object
or arguments object — that is not yet materialized it returns the
arguments-marker sentinel; whereas GetValue (a materialization step on
such a value) may allocate and yields the true value: a fresh captured
object materializes to one freshly allocated heap object, advancing the
allocation counter, and that object is not the sentinel. -/
theorem getRawValue_allocless_marker :
    (∀ tv : TranslatedValue, tv.value? = none →
      deferredKind tv.kind = true →
      getRawValue tv = Obj.argumentsMarker) ∧
    (∀ (aargs : Obj) (pos : List Nat) (st : MatState) (i len oid : Nat),
      st.slots.get? i = some ⟨.kCapturedObject len oid, none⟩ →
      matStep aargs pos st i =
        some (Obj.heapObj st.nextAddr,
          ⟨setMemo st.slots i (Obj.heapObj st.nextAddr),
            st.nextAddr + 1⟩) ∧
      Obj.heapObj st.nextAddr ≠ Obj.argumentsMarker) := by
  constructor
  · intro tv hval hdef
    unfold getRawValue
    rw [hval]
    cases hk : tv.kind <;> rw [hk] at hdef <;>
      first
        | rfl
        | simp [deferredKind] at hdef
  · intro aargs pos st i len oid hs
    constructor
    · unfold matStep
      rw [hs]
    · simp

/-- C10 witness: a not-yet-materialized duplicated-object value yields the
arguments marker from GetRawValue, and a fresh captured object in a
one-slot frame materializes to the heap object at address 0. -/
theorem getRawValue_allocless_marker_witness :
    getRawValue ⟨.kDuplicatedObject 0, none⟩ = Obj.argumentsMarker ∧
    (matStep Obj.argumentsMarker [] ⟨[⟨.kCapturedObject 0 0, none⟩], 0⟩ 0 =
      some (Obj.heapObj 0,
        ⟨setMemo [⟨.kCapturedObject 0 0, none⟩] 0 (Obj.heapObj 0), 1⟩) ∧
      Obj.heapObj 0 ≠ Obj.argumentsMarker) :=
  ⟨getRawValue_allocless_marker.1 ⟨.kDuplicatedObject 0, none⟩ rfl rfl,
   getRawValue_allocless_marker.2 Obj.argumentsMarker []
     ⟨[⟨.kCapturedObject 0 0, none⟩], 0⟩ 0 0 0 (by rfl)⟩

/-
The no-allocation pipeline invariant (C2).  The deoptimizer.h comment on
TranslatedState fixes the usage sequence: (1) construction resolves the
translations against the frame pointer and machine state, guaranteed not
to allocate and not to use any HandleScope, storing object pointers raw;
(2) handlification converts raw pointers to handles; (3) frame values are
read out.  The phase bodies are not among the provided sources, so the
pipeline is modelled from the spec, instrumented with the heap-allocation
counter after each phase.
-/

/-- The phases of one deoptimization instance up to materialization. -/
inductive Phase
  | capture
  | resolve
  | handlify
  | materialize
deriving DecidableEq, Repr

theorem createNext_value_none (snap : Snapshot) (vi : Nat) (pos : List Nat)
    (op : ValueOp) (tv : TranslatedValue) (pos1 : List Nat)
    (h : createNextTranslatedValue snap vi pos op = .ok (tv, pos1)) :
    tv.value? = none := by
  cases op <;>
    simp only [createNextTranslatedValue, Except.ok.injEq,
      Prod.mk.injEq] at h <;>
    first
      | (rw [← h.1])
      | skip
  case duplicatedObject id =>
    rcases hp : pos.get? id with _ | p <;> rw [hp] at h
    · exact absurd h (by simp)
    · simp only [Except.ok.injEq, Prod.mk.injEq] at h
      rw [← h.1]

theorem resolveStream_values_raw (snap : Snapshot) :
    ∀ (ops : List ValueOp) (vi : Nat) (pos : List Nat)
      (vals : List TranslatedValue) (posF : List Nat),
      resolveStream snap ops vi pos = .ok (vals, posF) →
      ∀ tv ∈ vals, tv.value? = none := by
  intro ops
  induction ops with
  | nil =>
    intro vi pos vals posF h tv htv
    rw [resolveStream] at h
    simp only [Except.ok.injEq, Prod.mk.injEq] at h
    rw [← h.1] at htv
    exact absurd htv (by simp)
  | cons op rest ih =>
    intro vi pos vals posF h tv htv
    rw [resolveStream] at h
    rcases hcv : createNextTranslatedValue snap vi pos op with e | tvpos1 <;>
      rw [hcv] at h
    · exact absurd h (by simp)
    obtain ⟨tv1, pos1⟩ := tvpos1
    dsimp only at h
    rcases hrs : resolveStream snap rest (vi + 1) pos1 with e | tvsposF <;>
      rw [hrs] at h
    · exact absurd h (by simp)
    obtain ⟨tvs, posF1⟩ := tvsposF
    dsimp only at h
    simp only [Except.ok.injEq, Prod.mk.injEq] at h
    rw [← h.1] at htv
    rcases List.mem_cons.mp htv with heq | hmem
    · rw [heq]
      exact createNext_value_none snap vi pos op tv1 pos1 hcv
    · exact ih (vi + 1) pos1 tvs posF1 hrs tv hmem

/-- Modelled from the spec: the deoptimization pipeline from snapshot
capture through materialization for one frame's value stream, with the
heap-allocation counter recorded after every phase.  Capture and
resolution are pure functions of the raw snapshot — they never receive the
allocator — handlification converts raw values to handles without
allocating, and only the materialization pass receives and advances the
allocation counter. -/
def runDeoptPipeline (snap : Snapshot) (ops : List ValueOp) (aargs : Obj)
    (heap0 : Nat) :
    Option (List (Phase × Nat) × List TranslatedValue ×
      List (Nat × Obj)) :=
  match resolveStream snap ops 0 [] with
  | .error _ => none
  | .ok (vals, pos) =>
    match matLoop aargs pos ⟨vals, heap0⟩ 0 vals.length with
    | none => none
    | some (outs, stF) =>
      some ([(.capture, heap0), (.resolve, heap0), (.handlify, heap0),
        (.materialize, stF.nextAddr)], vals, outs)

/-- C2: between capture of the input snapshot and the end of value
resolution and frame reconstruction, no heap allocation and no handle
creation occurs: every value produced by resolution still has a null
value_ handle, and the allocation counter is unchanged after the capture,
resolve and handlify phases; the counter can advance only in the
materialization phase, which runs after the raw values have been converted
to stable handles. -/
theorem no_allocation_before_materialization (snap : Snapshot)
    (ops : List ValueOp) (aargs : Obj) (heap0 : Nat)
    (trace : List (Phase × Nat)) (vals : List TranslatedValue)
    (outs : List (Nat × Obj))
    (h : runDeoptPipeline snap ops aargs heap0 = some (trace, vals, outs)) :
    (∀ tv ∈ vals, tv.value? = none) ∧
    ∃ heapF, heap0 ≤ heapF ∧
      trace = [(.capture, heap0), (.resolve, heap0), (.handlify, heap0),
        (.materialize, heapF)] := by
  unfold runDeoptPipeline at h
  rcases hrs : resolveStream snap ops 0 [] with e | valspos <;> rw [hrs] at h
  · exact absurd h (by simp)
  obtain ⟨vals1, pos⟩ := valspos
  dsimp only at h
  rcases hml : matLoop aargs pos ⟨vals1, heap0⟩ 0 vals1.length with
    _ | outsF <;> rw [hml] at h
  · exact absurd h (by simp)
  obtain ⟨outs1, stF⟩ := outsF
  dsimp only at h
  simp only [Option.some.injEq, Prod.mk.injEq] at h
  obtain ⟨htrace, hvals, houts⟩ := h
  constructor
  · intro tv htv
    rw [← hvals] at htv
    exact resolveStream_values_raw snap ops 0 [] vals1 pos hrs tv htv
  · refine ⟨stF.nextAddr, ?_, ?_⟩
    · exact (matLoop_frame aargs pos vals1.length ⟨vals1, heap0⟩ 0 outs1 stF
        hml).2.2.1
    · rw [← htrace]

/-- C2 witness: the pipeline on a two-value stream (a tagged register and
a captured object) from allocation counter 5; both values resolve raw and
the trace allocates only in the materialization phase. -/
theorem no_allocation_before_materialization_witness :
    (∀ tv ∈ [(⟨.kTagged 0, none⟩ : TranslatedValue),
      ⟨.kCapturedObject 0 0, none⟩], tv.value? = none) ∧
    ∃ heapF, 5 ≤ heapF ∧
      ([(Phase.capture, 5), (Phase.resolve, 5), (Phase.handlify, 5),
        (Phase.materialize, 6)] : List (Phase × Nat)) =
      [(.capture, 5), (.resolve, 5), (.handlify, 5),
        (.materialize, heapF)] :=
  no_allocation_before_materialization snapZero
    [ValueOp.register 0, ValueOp.capturedObject 0] Obj.argumentsMarker 5
    [(Phase.capture, 5), (Phase.resolve, 5), (Phase.handlify, 5),
      (Phase.materialize, 6)]
    [⟨.kTagged 0, none⟩, ⟨.kCapturedObject 0 0, none⟩]
    [(0, Obj.taggedRaw 0), (1, Obj.heapObj 5)] (by rfl)

/-
Runtime_NotifyDeoptimized (runtime-compiler.cc) — real code.
-/

/-- Deoptimizer::BailoutType (deoptimizer.h). -/
inductive BailoutType
  | EAGER
  | LAZY
  | SOFT
  | DEBUGGER
deriving DecidableEq, Repr

/-- The runtime state Runtime_NotifyDeoptimized operates on: the bailout
type argument, the optimized code object of the finished deoptimizer, the
deoptimized function's current code and its shared unoptimized code, the
shared function's optimized-code-map entries, and the code objects owning
the pcs of the frames left on this thread's stack after the deoptimized
frame and on all archived threads (what ActivationsFinder visits).  Code
objects are identified by id; Code::contains(frame->pc()) is membership of
the optimized code's id among those owners. -/
structure NotifyState where
  bailoutType : BailoutType
  optimizedCode : Nat
  functionCode : Nat
  sharedCode : Nat
  optimizedCodeMap : List Nat
  stackActivations : List Nat
  archivedActivations : List Nat
deriving DecidableEq, Repr

/-- The externally visible actions of Runtime_NotifyDeoptimized in
execution order. -/
inductive NotifyAction
  | materializeHeapObjects
  | searchActivations
  | replaceWithSharedCode
  | evictFromOptimizedCodeMap
  | deoptimizeWholeFunction
deriving DecidableEq, Repr

/-- ActivationsFinder (runtime-compiler.cc): visits the remaining frames
of the current thread and the frames of all archived threads and records
whether any frame's pc is contained in the optimized code. -/
def hasCodeActivations (s : NotifyState) : Bool :=
  s.stackActivations.contains s.optimizedCode ||
    s.archivedActivations.contains s.optimizedCode

/-- Runtime_NotifyDeoptimized (runtime-compiler.cc): materialize heap
objects before causing any allocation; for a LAZY bailout return
immediately afterwards; otherwise search all thread stacks for remaining
activations of the optimized code — if none remain, replace the function's
code with the shared unoptimized code (when the function still holds the
optimized code) and evict the optimized code from the optimized code map;
if one remains, deoptimize the whole function. -/
def runtimeNotifyDeoptimized (s : NotifyState) :
    List NotifyAction × NotifyState :=
  if s.bailoutType = BailoutType.LAZY then
    ([.materializeHeapObjects], s)
  else
    if hasCodeActivations s then
      ([.materializeHeapObjects, .searchActivations,
        .deoptimizeWholeFunction], s)
    else
      ([.materializeHeapObjects, .searchActivations] ++
        (if s.functionCode = s.optimizedCode
          then [.replaceWithSharedCode] else []) ++
        [.evictFromOptimizedCodeMap],
       ⟨s.bailoutType, s.optimizedCode,
        if s.functionCode = s.optimizedCode then s.sharedCode
          else s.functionCode,
        s.sharedCode,
        s.optimizedCodeMap.filter (fun c => decide (c ≠ s.optimizedCode)),
        s.stackActivations, s.archivedActivations⟩)

/-- C9: Runtime_NotifyDeoptimized always materializes heap objects first;
for a LAZY bailout it returns immediately after materialization without
searching for activations; for any other bailout it searches all thread
stacks for remaining activations of the optimized code, and then: when no
activation remains it replaces the function's code with the shared
unoptimized code (when the function still held the optimized code) and
evicts the optimized code from the optimized-code map without deoptimizing
the whole function; when an activation remains it deoptimizes the whole
function and changes no code bindings. -/
theorem notifyDeoptimized_spec (s : NotifyState) :
    (runtimeNotifyDeoptimized s).1.head? = some .materializeHeapObjects ∧
    (s.bailoutType = .LAZY →
      runtimeNotifyDeoptimized s = ([.materializeHeapObjects], s) ∧
      NotifyAction.searchActivations ∉ (runtimeNotifyDeoptimized s).1) ∧
    (s.bailoutType ≠ .LAZY →
      NotifyAction.searchActivations ∈ (runtimeNotifyDeoptimized s).1 ∧
      (hasCodeActivations s = false →
        (s.functionCode = s.optimizedCode →
          (runtimeNotifyDeoptimized s).2.functionCode = s.sharedCode) ∧
        s.optimizedCode ∉ (runtimeNotifyDeoptimized s).2.optimizedCodeMap ∧
        NotifyAction.deoptimizeWholeFunction ∉
          (runtimeNotifyDeoptimized s).1) ∧
      (hasCodeActivations s = true →
        NotifyAction.deoptimizeWholeFunction ∈
          (runtimeNotifyDeoptimized s).1 ∧
        (runtimeNotifyDeoptimized s).2 = s)) := by
  unfold runtimeNotifyDeoptimized
  by_cases hlazy : s.bailoutType = BailoutType.LAZY
  · rw [if_pos hlazy]
    refine ⟨rfl, fun _ => ⟨rfl, by simp⟩, fun hne => absurd hlazy hne⟩
  · rw [if_neg hlazy]
    by_cases hact : hasCodeActivations s
    · rw [if_pos hact]
      refine ⟨rfl, fun hl => absurd hl hlazy, fun _ => ⟨by simp, ?_, ?_⟩⟩
      · intro hfalse
        rw [hact] at hfalse
        exact absurd hfalse (by decide)
      · intro _
        exact ⟨by simp, rfl⟩
    · rw [if_neg hact]
      refine ⟨?_, fun hl => absurd hl hlazy, fun _ => ⟨?_, ?_, ?_⟩⟩
      · by_cases hfc : s.functionCode = s.optimizedCode <;>
          simp [hfc]
      · by_cases hfc : s.functionCode = s.optimizedCode <;>
          simp [hfc]
      · intro _
        refine ⟨?_, ?_, ?_⟩
        · intro hfc
          simp [hfc]
        · simp [List.mem_filter]
        · by_cases hfc : s.functionCode = s.optimizedCode <;>
            simp [hfc]
      · intro htrue
        exact absurd htrue (by simp [hact])

/-- C9 witness: an EAGER bailout with no remaining activations, the
function still holding the optimized code 2 with shared code 3; the
instantiated theorem for that state. -/
theorem notifyDeoptimized_spec_witness :
    (runtimeNotifyDeoptimized ⟨.EAGER, 2, 2, 3, [2], [], []⟩).1.head? =
      some .materializeHeapObjects ∧
    ((⟨.EAGER, 2, 2, 3, [2], [], []⟩ : NotifyState).bailoutType = .LAZY →
      runtimeNotifyDeoptimized ⟨.EAGER, 2, 2, 3, [2], [], []⟩ =
        ([.materializeHeapObjects], ⟨.EAGER, 2, 2, 3, [2], [], []⟩) ∧
      NotifyAction.searchActivations ∉
        (runtimeNotifyDeoptimized ⟨.EAGER, 2, 2, 3, [2], [], []⟩).1) ∧
    ((⟨.EAGER, 2, 2, 3, [2], [], []⟩ : NotifyState).bailoutType ≠ .LAZY →
      NotifyAction.searchActivations ∈
        (runtimeNotifyDeoptimized ⟨.EAGER, 2, 2, 3, [2], [], []⟩).1 ∧
      (hasCodeActivations ⟨.EAGER, 2, 2, 3, [2], [], []⟩ = false →
        ((⟨.EAGER, 2, 2, 3, [2], [], []⟩ : NotifyState).functionCode =
            (⟨.EAGER, 2, 2, 3, [2], [], []⟩ : NotifyState).optimizedCode →
          (runtimeNotifyDeoptimized
            ⟨.EAGER, 2, 2, 3, [2], [], []⟩).2.functionCode = 3) ∧
        (2 : Nat) ∉ (runtimeNotifyDeoptimized
          ⟨.EAGER, 2, 2, 3, [2], [], []⟩).2.optimizedCodeMap ∧
        NotifyAction.deoptimizeWholeFunction ∉
          (runtimeNotifyDeoptimized ⟨.EAGER, 2, 2, 3, [2], [], []⟩).1) ∧
      (hasCodeActivations ⟨.EAGER, 2, 2, 3, [2], [], []⟩ = true →
        NotifyAction.deoptimizeWholeFunction ∈
          (runtimeNotifyDeoptimized ⟨.EAGER, 2, 2, 3, [2], [], []⟩).1 ∧
        (runtimeNotifyDeoptimized ⟨.EAGER, 2, 2, 3, [2], [], []⟩).2 =
          ⟨.EAGER, 2, 2, 3, [2], [], []⟩)) :=
  notifyDeoptimized_spec ⟨.EAGER, 2, 2, 3, [2], [], []⟩

end V8Deopt
